import Mathlib

/-!
Verification of the cell-allocation and idempotent event-processing core of
the million-pixel reveal service.

The embedding follows the source:
* `src/backend/db.js` — the Postgres-backed store: tables `revealed`,
  `processed_events`, `donations`, `cell_allocations`; helpers `getAllCells`,
  `tryInsertEvent`, `recordDonation`, and the transactional flood-fill
  allocator `allocateCellsForEventAtomic`.
* `src/backend/server.js` — the in-memory variant: the `revealed` Map and
  `processedEvents` Set, the allocator `allocateCells`, the snapshot
  `allRevealedCells`, and the webhook handler with check-then-add dedupe.
* `src/unnamed/part_000` and `src/unnamed/part_002` — the DB-backed webhook
  handlers (plain server and router variants).

Machine integers are modelled as `Int`/`Nat` (the amounts and coordinates in
play are far below 2^53, where JS number arithmetic on integers is exact).
JS `Math.random()`-derived seeds are modelled by an explicit stream
`seeds : Nat → Nat × Nat` reduced mod the grid dimensions, so every theorem
quantifies over all possible random choices.  The unbounded `while` loops are
modelled with explicit fuel; fuel exhaustion is a distinguished outcome
(`QErr.fuelOut`) and sufficiency of a concrete fuel bound is proved, so no
behaviour is lost in the translation.  Database statement failures
(StorageUnavailable) are modelled by an oracle `fails : Nat → Bool` telling
which numbered SQL statement of a run throws; `noFail` is the failure-free
run.
-/

namespace Pixel

/-- A grid cell, identified by integer coordinates `(x, y)`. -/
abbrev Cell := Int × Int

/-- The bounds test `a >= 0 && b >= 0 && a < gridW && b < gridH` used by the
`neighborsOf` filters in both allocators. -/
def inBounds (W H : Nat) (c : Cell) : Prop :=
  0 ≤ c.1 ∧ 0 ≤ c.2 ∧ c.1 < (W : Int) ∧ c.2 < (H : Int)

instance (W H : Nat) (c : Cell) : Decidable (inBounds W H c) := by
  unfold inBounds; infer_instance

/-- The set of all in-bounds cells of a `W × H` grid. -/
def grid (W H : Nat) : Finset Cell :=
  Finset.Icc (0 : Int) ((W : Int) - 1) ×ˢ Finset.Icc (0 : Int) ((H : Int) - 1)

/-- `neighborsOf` from `allocateCellsForEventAtomic` (db.js lines 101-107):
the four axis-aligned neighbors, filtered to grid bounds only — the revealed
state is not consulted. -/
def neighborsOf (W H : Nat) (x y : Int) : List Cell :=
  [(x + 1, y), (x - 1, y), (x, y + 1), (x, y - 1)].filter
    (fun c => decide (inBounds W H c))

/-- One row of the `donations` table (db.js schema). -/
structure Donation where
  eventId : String
  amountCents : Int
  message : String
  cellsAllocated : Nat
deriving DecidableEq

/-- The database state: the four tables created on boot in db.js.
`revealed` has primary key `(x, y)`; `cell_allocations` is kept in insertion
order with its key-uniqueness enforced by the conflict-ignoring insert;
`processed_events` has primary key `event_id`; `donations` is append-only. -/
structure DB where
  revealed : Finset Cell
  cellAllocs : List (Cell × String)
  processedEvents : Finset String
  donations : List Donation
deriving DecidableEq

/-- The lexicographic `(x, y)` order of `ORDER BY x, y`. -/
def cellLe (a b : Cell) : Prop := a.1 < b.1 ∨ (a.1 = b.1 ∧ a.2 ≤ b.2)

instance : DecidableRel cellLe := fun a b =>
  inferInstanceAs (Decidable (a.1 < b.1 ∨ (a.1 = b.1 ∧ a.2 ≤ b.2)))

instance : IsTrans Cell cellLe :=
  ⟨by intro a b c hab hbc; unfold cellLe at *; omega⟩

instance : IsAntisymm Cell cellLe := by
  refine ⟨fun a b hab hba => ?_⟩
  unfold cellLe at hab hba
  have h1 : a.1 = b.1 := by omega
  have h2 : a.2 = b.2 := by omega
  exact Prod.ext h1 h2

instance : IsTotal Cell cellLe := ⟨by intro a b; unfold cellLe; omega⟩

/-- `getAllCells` (db.js lines 68-71): `SELECT x, y FROM revealed ORDER BY
x, y`. -/
def getAllCells (db : DB) : List Cell := Finset.sort cellLe db.revealed

/-- `tryInsertEvent` (db.js lines 73-80): `INSERT INTO processed_events ...
ON CONFLICT (event_id) DO NOTHING`; the row count is 1 exactly when the id
was newly inserted. -/
def tryInsertEvent (db : DB) (eventId : String) : Bool × DB :=
  if eventId ∈ db.processedEvents then (false, db)
  else (true, { db with processedEvents := insert eventId db.processedEvents })

/-- `recordDonation` (db.js lines 82-88): append one row to `donations`. -/
def recordDonation (db : DB) (eventId : String) (amountCents : Int)
    (message : String) (cells : Nat) : DB :=
  { db with donations := db.donations ++ [⟨eventId, amountCents, message, cells⟩] }

/-- The `INSERT INTO cell_allocations ... ON CONFLICT (x,y) DO NOTHING`
statement (db.js lines 130-134). -/
def insertCellAlloc (allocs : List (Cell × String)) (c : Cell) (eid : String) :
    List (Cell × String) :=
  if allocs.any (fun p => decide (p.1 = c)) then allocs else allocs ++ [(c, eid)]

/-- Outcome tags for an embedded run: `qfail` models a throwing SQL statement
(StorageUnavailable); `fuelOut` is an artifact of the fuel-based embedding of
the unbounded while loops. -/
inductive QErr
  | qfail
  | fuelOut
deriving DecidableEq

/-- Result of one full allocator invocation: `ok` carries the committed state
and the returned cell list; `failed` carries the state visible after
ROLLBACK; `fuelOut` marks fuel exhaustion of the embedding. -/
inductive AllocResult
  | ok (db : DB) (cells : List Cell)
  | failed (db : DB)
  | fuelOut
deriving DecidableEq

/-- The failure-free statement oracle. -/
def noFail : Nat → Bool := fun _ => false

/-- The inner flood-fill while loop of `allocateCellsForEventAtomic`
(db.js lines 116-137).  State: FIFO queue `q`, the per-traversal `seen` set,
the transaction-local database, the accumulator `alloc`, and the statement
counter `step`.  A popped cell already in `seen` is skipped; otherwise the
`revealed` insert runs (statement `step`): on success the cell is accumulated
and the `cell_allocations` insert runs (statement `step + 1`); in either case
the in-bounds neighbors are appended to the queue. -/
def bfsLoop (fails : Nat → Bool) (qty : Int) (W H : Nat) (eid : String) :
    Nat → List Cell → Finset Cell → DB → List Cell → Nat →
      Except QErr (DB × List Cell × Nat)
  | 0, _, _, _, _, _ => .error .fuelOut
  | fuel + 1, q, seen, db, alloc, step =>
    match q with
    | [] => .ok (db, alloc, step)
    | c :: rest =>
      if (alloc.length : Int) < qty then
        if c ∈ seen then bfsLoop fails qty W H eid fuel rest seen db alloc step
        else
          if fails step then .error .qfail
          else if c ∈ db.revealed then
            bfsLoop fails qty W H eid fuel
              (rest ++ neighborsOf W H c.1 c.2) (insert c seen) db alloc
              (step + 1)
          else
            if fails (step + 1) then .error .qfail
            else
              bfsLoop fails qty W H eid fuel
                (rest ++ neighborsOf W H c.1 c.2) (insert c seen)
                { db with revealed := insert c db.revealed,
                          cellAllocs := insertCellAlloc db.cellAllocs c eid }
                (alloc ++ [c]) (step + 2)
      else .ok (db, alloc, step)

/-- The outer attempts loop of `allocateCellsForEventAtomic` (db.js line
109): `while (allocated.length < qty && attempts < gridW * gridH * 2)`.
The fuel argument counts the remaining attempts, starting from
`W * H * 2`; it is returned on exit so the stopping condition is
observable.  The random seed of each attempt is
`(seeds 0).1 % W, (seeds 0).2 % H` (the image of `Math.floor(Math.random() *
gridW)`), and the stream is shifted for the next attempt. -/
def allocOuter (fails : Nat → Bool) (qty : Int) (W H : Nat) (eid : String)
    (innerFuel : Nat) :
    (Nat → Nat × Nat) → Nat → DB → List Cell → Nat →
      Except QErr (DB × List Cell × Nat × Nat)
  | _, 0, db, alloc, step => .ok (db, alloc, 0, step)
  | seeds, n + 1, db, alloc, step =>
    if (alloc.length : Int) < qty then
      match bfsLoop fails qty W H eid innerFuel
          [(((seeds 0).1 % W : Nat), ((seeds 0).2 % H : Nat))] ∅ db alloc
          step with
      | .error e => .error e
      | .ok (db1, alloc1, step1) =>
          allocOuter fails qty W H eid innerFuel (fun i => seeds (i + 1)) n
            db1 alloc1 step1
    else .ok (db, alloc, n + 1, step)

/-- `allocateCellsForEventAtomic` (db.js lines 94-148).  The whole run is one
transaction: `BEGIN` is statement 0, the loop statements follow, and the
final `COMMIT` is the statement after the loop.  If any statement throws, the
`catch` issues `ROLLBACK` and the committed state is exactly the input
`db`. -/
def allocateCellsForEventAtomic (fails : Nat → Bool) (qty : Int) (W H : Nat)
    (eid : String) (seeds : Nat → Nat × Nat) (innerFuel : Nat) (db : DB) :
    AllocResult :=
  if fails 0 then .failed db
  else
    match allocOuter fails qty W H eid innerFuel seeds (W * H * 2) db [] 1 with
    | .error .qfail => .failed db
    | .error .fuelOut => .fuelOut
    | .ok (db1, alloc, _, step) =>
        if fails step then .failed db else .ok db1 alloc

/-- `taken` (server.js lines 47-49): `revealed.has(key(x, y))`.  The
in-memory store is the list of revealed cells in insertion order (a JS Map
preserves key insertion order). -/
def takenMem (rl : List Cell) (c : Cell) : Bool := decide (c ∈ rl)

/-- `neighborsOf` from `allocateCells` (server.js lines 54-63): bounds check
AND `!taken(a, b)` — unlike the db.js allocator, revealed cells are filtered
out at enqueue time. -/
def neighborsOfMem (W H : Nat) (rl : List Cell) (x y : Int) : List Cell :=
  [(x + 1, y), (x - 1, y), (x, y + 1), (x, y - 1)].filter
    (fun c => decide (inBounds W H c) && !takenMem rl c)

/-- The inner loop of `allocateCells` (server.js lines 72-80): no per-
traversal seen set; a popped taken cell is skipped by `continue`, so its
neighbors are NOT enqueued; a claimed cell is appended to the store and the
accumulator, and its not-taken in-bounds neighbors are enqueued. -/
def bfsMem (qty : Int) (W H : Nat) :
    Nat → List Cell → List Cell → List Cell →
      Except QErr (List Cell × List Cell)
  | 0, _, _, _ => .error .fuelOut
  | fuel + 1, q, rl, cells =>
    match q with
    | [] => .ok (rl, cells)
    | c :: rest =>
      if (cells.length : Int) < qty then
        if takenMem rl c then bfsMem qty W H fuel rest rl cells
        else
          bfsMem qty W H fuel
            (rest ++ neighborsOfMem W H (rl ++ [c]) c.1 c.2) (rl ++ [c])
            (cells ++ [c])
      else .ok (rl, cells)

/-- The outer loop of `allocateCells` (server.js lines 65-81):
`while (cells.length < qty && attempts < GRID_COLUMNS * GRID_ROWS)` — note
the bound is `W * H`, and a taken seed is skipped (`continue`) before any
traversal, unlike the db.js allocator. -/
def allocMemOuter (qty : Int) (W H : Nat) (innerFuel : Nat) :
    (Nat → Nat × Nat) → Nat → List Cell → List Cell →
      Except QErr (List Cell × List Cell × Nat)
  | _, 0, rl, cells => .ok (rl, cells, 0)
  | seeds, n + 1, rl, cells =>
    if (cells.length : Int) < qty then
      if takenMem rl (((seeds 0).1 % W : Nat), ((seeds 0).2 % H : Nat)) then
        allocMemOuter qty W H innerFuel (fun i => seeds (i + 1)) n rl cells
      else
        match bfsMem qty W H innerFuel
            [(((seeds 0).1 % W : Nat), ((seeds 0).2 % H : Nat))] rl cells with
        | .error e => .error e
        | .ok (rl1, cells1) =>
            allocMemOuter qty W H innerFuel (fun i => seeds (i + 1)) n rl1
              cells1
    else .ok (rl, cells, n + 1)

/-- `allocateCells` (server.js lines 52-83), the in-memory allocator. -/
def allocateCells (qty : Int) (W H : Nat) (seeds : Nat → Nat × Nat)
    (innerFuel : Nat) (rl : List Cell) :
    Except QErr (List Cell × List Cell × Nat) :=
  allocMemOuter qty W H innerFuel seeds (W * H) rl []

/-- `allRevealedCells` (server.js lines 44-46): `[...revealed.values()]`,
i.e. the Map's values in key insertion order. -/
def allRevealedCells (rl : List Cell) : List Cell := rl

/-- `cellsToReveal` as computed by every webhook handler:
`Math.floor(amountCents / centsPerCell)`, i.e. floor division. -/
def cellsToRevealOf (amountCents centsPerCell : Int) : Int :=
  Int.fdiv amountCents centsPerCell

/-- A verified Stripe event as the webhook handlers see it: `isCompleted`
models `event.type === "checkout.session.completed"`, `amountTotal` models
`session.amount_total` (nullable, defaulted to 0 by `?? 0`), and `message`
models `session.metadata?.message || ""`. -/
structure StripeEvent where
  id : String
  isCompleted : Bool
  amountTotal : Option Int
  message : String
deriving DecidableEq

/-- A socket.io broadcast emitted by a handler. -/
inductive Emit
  | donationMessage (orderId : String) (amountCents : Int) (message : String)
  | cellsRevealed (orderId : String) (amountCents : Int) (message : String)
      (cells : List Cell)
deriving DecidableEq

/-- The HTTP response of a webhook handler (signature verification, which
precedes everything modelled here, is an external concern).  `modelFuelOut`
marks fuel exhaustion of the embedding. -/
inductive WebhookResp
  | received
  | deduped
  | error500
  | modelFuelOut
deriving DecidableEq

/-- The `/stripe/webhook` handler of the DB-backed server (part_000 lines
43-125): dedupe FIRST via `tryInsertEvent`; on a completed checkout compute
`cellsToReveal`; if it is ≤ 0 emit a `donation_message` broadcast and return
(no donation row is recorded on this path); otherwise allocate atomically,
record a donation with the actual allocated count, and emit
`cells_revealed`.  An allocator failure is caught and answered with a 500. -/
def stripeWebhookServer (fails : Nat → Bool) (W H : Nat)
    (centsPerCell : Int) (seeds : Nat → Nat × Nat) (innerFuel : Nat)
    (ev : StripeEvent) (db : DB) : DB × WebhookResp × List Emit :=
  let r := tryInsertEvent db ev.id
  if !r.1 then (r.2, .deduped, [])
  else if ev.isCompleted then
    let amountCents := ev.amountTotal.getD 0
    let cellsToReveal := cellsToRevealOf amountCents centsPerCell
    if cellsToReveal ≤ 0 then
      (r.2, .received, [.donationMessage ev.id amountCents ev.message])
    else
      match allocateCellsForEventAtomic fails cellsToReveal W H ev.id seeds
          innerFuel r.2 with
      | .ok db1 cells =>
          (recordDonation db1 ev.id amountCents ev.message cells.length,
            .received, [.cellsRevealed ev.id amountCents ev.message cells])
      | .failed d => (d, .error500, [])
      | .fuelOut => (r.2, .modelFuelOut, [])
  else (r.2, .received, [])

/-- The `/stripe/webhook` handler of the router-based server (part_002 lines
66-164).  Identical to `stripeWebhookServer` except on the message-only
path, where it FIRST records a zero-cell donation row and then emits the
`donation_message` broadcast. -/
def stripeWebhookRouter (fails : Nat → Bool) (W H : Nat)
    (centsPerCell : Int) (seeds : Nat → Nat × Nat) (innerFuel : Nat)
    (ev : StripeEvent) (db : DB) : DB × WebhookResp × List Emit :=
  let r := tryInsertEvent db ev.id
  if !r.1 then (r.2, .deduped, [])
  else if ev.isCompleted then
    let amountCents := ev.amountTotal.getD 0
    let cellsToReveal := cellsToRevealOf amountCents centsPerCell
    if cellsToReveal ≤ 0 then
      (recordDonation r.2 ev.id amountCents ev.message 0, .received,
        [.donationMessage ev.id amountCents ev.message])
    else
      match allocateCellsForEventAtomic fails cellsToReveal W H ev.id seeds
          innerFuel r.2 with
      | .ok db1 cells =>
          (recordDonation db1 ev.id amountCents ev.message cells.length,
            .received, [.cellsRevealed ev.id amountCents ev.message cells])
      | .failed d => (d, .error500, [])
      | .fuelOut => (r.2, .modelFuelOut, [])
  else (r.2, .received, [])

/-- The `/stripe/webhook` handler of the in-memory server (backend/server.js
lines 88-174): dedupe by `processedEvents.has(event.id)` at the top, with
`processedEvents.add(event.id)` only later inside the completed-checkout
case; no donations table exists.  The enrichment of the first allocated cell
with amount/message mutates cell data, not cell presence, and is not
modelled. -/
def stripeWebhookMem (W H : Nat) (centsPerCell : Int)
    (seeds : Nat → Nat × Nat) (innerFuel : Nat) (ev : StripeEvent)
    (rl : List Cell) (processed : Finset String) :
    List Cell × Finset String × WebhookResp × List Emit :=
  if ev.id ∈ processed then (rl, processed, .deduped, [])
  else if ev.isCompleted then
    let amountCents := ev.amountTotal.getD 0
    let cellsToReveal := cellsToRevealOf amountCents centsPerCell
    if cellsToReveal ≤ 0 then
      (rl, insert ev.id processed, .received,
        [.donationMessage ev.id amountCents ev.message])
    else
      match allocateCells cellsToReveal W H seeds innerFuel rl with
      | .ok (rl1, cells, _) =>
          (rl1, insert ev.id processed, .received,
            [.cellsRevealed ev.id amountCents ev.message cells])
      | .error _ => (rl, processed, .modelFuelOut, [])
  else (rl, processed, .received, [])

/-- Operations of the DB-backed core, for stating snapshot monotonicity over
arbitrary operation sequences: a webhook delivery, or a direct allocator
invocation (as the simulation endpoints perform), each with its own seed
stream and failure oracle. -/
inductive CoreOp
  | webhook (fails : Nat → Bool) (seeds : Nat → Nat × Nat) (innerFuel : Nat)
      (ev : StripeEvent)
  | allocRaw (fails : Nat → Bool) (qty : Int) (eid : String)
      (seeds : Nat → Nat × Nat) (innerFuel : Nat)

/-- The database state reached after one core operation. -/
def applyOp (W H : Nat) (centsPerCell : Int) (db : DB) : CoreOp → DB
  | .webhook fails seeds innerFuel ev =>
      (stripeWebhookRouter fails W H centsPerCell seeds innerFuel ev db).1
  | .allocRaw fails qty eid seeds innerFuel =>
      match allocateCellsForEventAtomic fails qty W H eid seeds innerFuel db with
      | .ok db1 _ => db1
      | .failed d => d
      | .fuelOut => db

/-- First-match lookup of a cell's allocation (`SELECT event_id FROM
cell_allocations WHERE x = $1 AND y = $2`). -/
def lookupAlloc (allocs : List (Cell × String)) (c : Cell) : Option String :=
  (allocs.find? (fun p => decide (p.1 = c))).map (fun p => p.2)

end Pixel

namespace Pixel

/-! ### Basic facts about the grid and the neighbor lists -/

theorem mem_grid {W H : Nat} {c : Cell} : c ∈ grid W H ↔ inBounds W H c := by
  obtain ⟨x, y⟩ := c
  simp only [grid, Finset.mem_product, Finset.mem_Icc, inBounds]
  omega

theorem card_grid (W H : Nat) : (grid W H).card = W * H := by
  rw [grid, Finset.card_product, Int.card_Icc, Int.card_Icc]
  have h1 : ((W : Int) - 1 + 1 - 0).toNat = W := by omega
  have h2 : ((H : Int) - 1 + 1 - 0).toNat = H := by omega
  rw [h1, h2]

theorem mem_neighborsOf {W H : Nat} {x y : Int} {n : Cell} :
    n ∈ neighborsOf W H x y ↔
      (n = (x + 1, y) ∨ n = (x - 1, y) ∨ n = (x, y + 1) ∨ n = (x, y - 1)) ∧
        inBounds W H n := by
  simp [neighborsOf, List.mem_filter]

theorem neighborsOf_mem_grid {W H : Nat} {x y : Int} {n : Cell}
    (h : n ∈ neighborsOf W H x y) : n ∈ grid W H := by
  rw [mem_grid]
  exact (mem_neighborsOf.1 h).2

theorem neighborsOf_length_le (W H : Nat) (x y : Int) :
    (neighborsOf W H x y).length ≤ 4 := by
  have h := List.length_filter_le (fun c => decide (inBounds W H c))
    [(x + 1, y), (x - 1, y), (x, y + 1), (x, y - 1)]
  simpa [neighborsOf] using h

theorem seed_mem_grid {W H : Nat} (hW : 0 < W) (hH : 0 < H) (a b : Nat) :
    ((((a % W : Nat) : Int), ((b % H : Nat) : Int)) : Cell) ∈ grid W H := by
  rw [mem_grid]
  have h1 : a % W < W := Nat.mod_lt _ hW
  have h2 : b % H < H := Nat.mod_lt _ hH
  unfold inBounds
  dsimp only
  refine ⟨Int.natCast_nonneg _, Int.natCast_nonneg _, ?_, ?_⟩
  · exact_mod_cast h1
  · exact_mod_cast h2

/-! ### Connectivity of the grid graph

Any set of cells that is closed under the (bounds-filtered) neighbor lists
and contains one in-bounds cell contains the whole grid.  This is what makes
the db.js flood fill, whose traversal passes through already-revealed cells,
reach every cell of the grid from any seed. -/

theorem row_reach {W H : Nat} {S : Finset Cell}
    (hcl : ∀ c ∈ S, ∀ n ∈ neighborsOf W H c.1 c.2, n ∈ S)
    {y : Int} (hy0 : 0 ≤ y) (hyH : y < (H : Int))
    {a : Int} (ha0 : 0 ≤ a) (haW : a < (W : Int))
    (haS : ((a, y) : Cell) ∈ S) :
    ∀ x : Int, 0 ≤ x → x < (W : Int) → ((x, y) : Cell) ∈ S := by
  intro x hx0 hxW
  rcases le_total a x with hax | hxa
  · refine @Int.le_induction
      (fun t => 0 ≤ t → t < (W : Int) → ((t, y) : Cell) ∈ S) a
      (fun _ _ => haS) ?_ x hax hx0 hxW
    intro n han hPn h0 hW1
    have hn : ((n, y) : Cell) ∈ S := hPn (le_trans ha0 han) (by omega)
    refine hcl (n, y) hn (n + 1, y) ?_
    rw [mem_neighborsOf]
    refine ⟨Or.inl rfl, ?_⟩
    unfold inBounds
    dsimp only
    omega
  · refine @Int.le_induction_down
      (fun t => 0 ≤ t → t < (W : Int) → ((t, y) : Cell) ∈ S) a
      (fun _ _ => haS) ?_ x hxa hx0 hxW
    intro n han hPn h0 hW1
    have hn : ((n, y) : Cell) ∈ S := hPn (by omega) (by omega)
    refine hcl (n, y) hn (n - 1, y) ?_
    rw [mem_neighborsOf]
    refine ⟨Or.inr (Or.inl rfl), ?_⟩
    unfold inBounds
    dsimp only
    omega

theorem col_reach {W H : Nat} {S : Finset Cell}
    (hcl : ∀ c ∈ S, ∀ n ∈ neighborsOf W H c.1 c.2, n ∈ S)
    {x : Int} (hx0 : 0 ≤ x) (hxW : x < (W : Int))
    {b : Int} (hb0 : 0 ≤ b) (hbH : b < (H : Int))
    (hbS : ((x, b) : Cell) ∈ S) :
    ∀ y : Int, 0 ≤ y → y < (H : Int) → ((x, y) : Cell) ∈ S := by
  intro y hy0 hyH
  rcases le_total b y with hby | hyb
  · refine @Int.le_induction
      (fun t => 0 ≤ t → t < (H : Int) → ((x, t) : Cell) ∈ S) b
      (fun _ _ => hbS) ?_ y hby hy0 hyH
    intro n hbn hPn h0 hH1
    have hn : ((x, n) : Cell) ∈ S := hPn (le_trans hb0 hbn) (by omega)
    refine hcl (x, n) hn (x, n + 1) ?_
    rw [mem_neighborsOf]
    refine ⟨Or.inr (Or.inr (Or.inl rfl)), ?_⟩
    unfold inBounds
    dsimp only
    omega
  · refine @Int.le_induction_down
      (fun t => 0 ≤ t → t < (H : Int) → ((x, t) : Cell) ∈ S) b
      (fun _ _ => hbS) ?_ y hyb hy0 hyH
    intro n hnb hPn h0 hH1
    have hn : ((x, n) : Cell) ∈ S := hPn (by omega) (by omega)
    refine hcl (x, n) hn (x, n - 1) ?_
    rw [mem_neighborsOf]
    refine ⟨Or.inr (Or.inr (Or.inr rfl)), ?_⟩
    unfold inBounds
    dsimp only
    omega

theorem closed_grid_subset {W H : Nat} {S : Finset Cell}
    (hcl : ∀ c ∈ S, ∀ n ∈ neighborsOf W H c.1 c.2, n ∈ S)
    {s : Cell} (hs : s ∈ S) (hsg : s ∈ grid W H) :
    ∀ c ∈ grid W H, c ∈ S := by
  obtain ⟨s1, s2⟩ := s
  rw [mem_grid] at hsg
  obtain ⟨hs10, hs20, hs1W, hs2H⟩ := hsg
  intro c hc
  obtain ⟨c1, c2⟩ := c
  rw [mem_grid] at hc
  obtain ⟨hc10, hc20, hc1W, hc2H⟩ := hc
  have hmid : ((c1, s2) : Cell) ∈ S :=
    row_reach hcl hs20 hs2H hs10 hs1W hs c1 hc10 hc1W
  exact col_reach hcl hc10 hc1W hs20 hs2H hmid c2 hc20 hc2H

end Pixel

namespace Pixel

/-! ### Invariants of the db.js inner flood-fill loop -/

theorem dbExt {a b : DB} (h1 : a.revealed = b.revealed)
    (h2 : a.cellAllocs = b.cellAllocs)
    (h3 : a.processedEvents = b.processedEvents)
    (h4 : a.donations = b.donations) : a = b := by
  cases a
  cases b
  dsimp at h1 h2 h3 h4
  subst h1; subst h2; subst h3; subst h4
  rfl

theorem bfsLoop_revealed_mono (fails : Nat → Bool) (qty : Int) (W H : Nat)
    (eid : String) :
    ∀ (fuel : Nat) (q : List Cell) (seen : Finset Cell) (db : DB)
      (alloc : List Cell) (step : Nat) (db' : DB) (alloc' : List Cell)
      (step' : Nat),
      bfsLoop fails qty W H eid fuel q seen db alloc step =
        .ok (db', alloc', step') →
      db.revealed ⊆ db'.revealed := by
  intro fuel
  induction fuel with
  | zero =>
    intro q seen db alloc step db' alloc' step' h
    simp [bfsLoop] at h
  | succ fuel ih =>
    intro q seen db alloc step db' alloc' step' h
    cases q with
    | nil =>
      simp [bfsLoop] at h
      obtain ⟨h1, h2, h3⟩ := h
      subst h1
      exact Finset.Subset.refl _
    | cons c rest =>
      rw [bfsLoop] at h
      by_cases hlen : (alloc.length : Int) < qty
      · rw [if_pos hlen] at h
        by_cases hseen : c ∈ seen
        · rw [if_pos hseen] at h
          exact ih _ _ _ _ _ _ _ _ h
        · rw [if_neg hseen] at h
          by_cases hf : fails step
          · rw [if_pos hf] at h
            exact absurd h (by simp)
          · rw [if_neg hf] at h
            by_cases hrev : c ∈ db.revealed
            · rw [if_pos hrev] at h
              exact ih _ _ _ _ _ _ _ _ h
            · rw [if_neg hrev] at h
              by_cases hf2 : fails (step + 1)
              · rw [if_pos hf2] at h
                exact absurd h (by simp)
              · rw [if_neg hf2] at h
                have hsub := ih _ _ _ _ _ _ _ _ h
                exact fun x hx => hsub (Finset.mem_insert_of_mem hx)
      · rw [if_neg hlen] at h
        simp at h
        obtain ⟨h1, h2, h3⟩ := h
        subst h1
        exact Finset.Subset.refl _

theorem bfsLoop_frame (fails : Nat → Bool) (qty : Int) (W H : Nat)
    (eid : String) :
    ∀ (fuel : Nat) (q : List Cell) (seen : Finset Cell) (db : DB)
      (alloc : List Cell) (step : Nat) (db' : DB) (alloc' : List Cell)
      (step' : Nat),
      bfsLoop fails qty W H eid fuel q seen db alloc step =
        .ok (db', alloc', step') →
      db'.processedEvents = db.processedEvents ∧
        db'.donations = db.donations := by
  intro fuel
  induction fuel with
  | zero =>
    intro q seen db alloc step db' alloc' step' h
    simp [bfsLoop] at h
  | succ fuel ih =>
    intro q seen db alloc step db' alloc' step' h
    cases q with
    | nil =>
      simp [bfsLoop] at h
      obtain ⟨h1, h2, h3⟩ := h
      subst h1
      exact ⟨rfl, rfl⟩
    | cons c rest =>
      rw [bfsLoop] at h
      by_cases hlen : (alloc.length : Int) < qty
      · rw [if_pos hlen] at h
        by_cases hseen : c ∈ seen
        · rw [if_pos hseen] at h
          exact ih _ _ _ _ _ _ _ _ h
        · rw [if_neg hseen] at h
          by_cases hf : fails step
          · rw [if_pos hf] at h
            exact absurd h (by simp)
          · rw [if_neg hf] at h
            by_cases hrev : c ∈ db.revealed
            · rw [if_pos hrev] at h
              exact ih _ _ _ _ _ _ _ _ h
            · rw [if_neg hrev] at h
              by_cases hf2 : fails (step + 1)
              · rw [if_pos hf2] at h
                exact absurd h (by simp)
              · rw [if_neg hf2] at h
                have hh := ih _ _ _ _ _ _ _ _ h
                exact hh
      · rw [if_neg hlen] at h
        simp at h
        obtain ⟨h1, h2, h3⟩ := h
        subst h1
        exact ⟨rfl, rfl⟩

theorem bfsLoop_length_le (fails : Nat → Bool) (qty : Int) (W H : Nat)
    (eid : String) :
    ∀ (fuel : Nat) (q : List Cell) (seen : Finset Cell) (db : DB)
      (alloc : List Cell) (step : Nat) (db' : DB) (alloc' : List Cell)
      (step' : Nat),
      (alloc.length : Int) ≤ qty →
      bfsLoop fails qty W H eid fuel q seen db alloc step =
        .ok (db', alloc', step') →
      (alloc'.length : Int) ≤ qty := by
  intro fuel
  induction fuel with
  | zero =>
    intro q seen db alloc step db' alloc' step' hle h
    simp [bfsLoop] at h
  | succ fuel ih =>
    intro q seen db alloc step db' alloc' step' hle h
    cases q with
    | nil =>
      simp [bfsLoop] at h
      obtain ⟨h1, h2, h3⟩ := h
      subst h2
      exact hle
    | cons c rest =>
      rw [bfsLoop] at h
      by_cases hlen : (alloc.length : Int) < qty
      · rw [if_pos hlen] at h
        by_cases hseen : c ∈ seen
        · rw [if_pos hseen] at h
          exact ih _ _ _ _ _ _ _ _ hle h
        · rw [if_neg hseen] at h
          by_cases hf : fails step
          · rw [if_pos hf] at h
            exact absurd h (by simp)
          · rw [if_neg hf] at h
            by_cases hrev : c ∈ db.revealed
            · rw [if_pos hrev] at h
              exact ih _ _ _ _ _ _ _ _ hle h
            · rw [if_neg hrev] at h
              by_cases hf2 : fails (step + 1)
              · rw [if_pos hf2] at h
                exact absurd h (by simp)
              · rw [if_neg hf2] at h
                refine ih _ _ _ _ _ _ _ _ ?_ h
                simp only [List.length_append, List.length_cons,
                  List.length_nil]
                push_cast
                omega
      · rw [if_neg hlen] at h
        simp at h
        obtain ⟨h1, h2, h3⟩ := h
        subst h2
        exact hle

theorem bfsLoop_ne_qfail (qty : Int) (W H : Nat) (eid : String) :
    ∀ (fuel : Nat) (q : List Cell) (seen : Finset Cell) (db : DB)
      (alloc : List Cell) (step : Nat),
      bfsLoop noFail qty W H eid fuel q seen db alloc step ≠
        .error .qfail := by
  intro fuel
  induction fuel with
  | zero =>
    intro q seen db alloc step h
    simp [bfsLoop] at h
  | succ fuel ih =>
    intro q seen db alloc step h
    cases q with
    | nil => simp [bfsLoop] at h
    | cons c rest =>
      rw [bfsLoop] at h
      by_cases hlen : (alloc.length : Int) < qty
      · rw [if_pos hlen] at h
        by_cases hseen : c ∈ seen
        · rw [if_pos hseen] at h
          exact ih _ _ _ _ _ h
        · rw [if_neg hseen] at h
          rw [if_neg (by simp [noFail])] at h
          by_cases hrev : c ∈ db.revealed
          · rw [if_pos hrev] at h
            exact ih _ _ _ _ _ h
          · rw [if_neg hrev] at h
            rw [if_neg (by simp [noFail])] at h
            exact ih _ _ _ _ _ h
      · rw [if_neg hlen] at h
        simp at h

end Pixel

namespace Pixel

theorem bfsLoop_ne_fuelOut (fails : Nat → Bool) (qty : Int) (W H : Nat)
    (eid : String) :
    ∀ (fuel : Nat) (q : List Cell) (seen : Finset Cell) (db : DB)
      (alloc : List Cell) (step : Nat),
      (∀ c ∈ q, c ∈ grid W H) →
      4 * ((grid W H \ seen).card) + q.length < fuel →
      bfsLoop fails qty W H eid fuel q seen db alloc step ≠
        .error .fuelOut := by
  intro fuel
  induction fuel with
  | zero =>
    intro q seen db alloc step hq hP h
    omega
  | succ fuel ih =>
    intro q seen db alloc step hq hP h
    cases q with
    | nil => simp [bfsLoop] at h
    | cons c rest =>
      rw [bfsLoop] at h
      by_cases hlen : (alloc.length : Int) < qty
      · rw [if_pos hlen] at h
        by_cases hseen : c ∈ seen
        · rw [if_pos hseen] at h
          refine ih rest seen db alloc step
            (fun x hx => hq x (List.mem_cons_of_mem _ hx)) ?_ h
          simp only [List.length_cons] at hP
          omega
        · rw [if_neg hseen] at h
          by_cases hf : fails step
          · rw [if_pos hf] at h
            simp at h
          · rw [if_neg hf] at h
            have hcg : c ∈ grid W H := hq c (List.mem_cons_self _ _)
            have hmem : c ∈ grid W H \ seen := Finset.mem_sdiff.2 ⟨hcg, hseen⟩
            have hpos : 0 < (grid W H \ seen).card :=
              Finset.card_pos.2 ⟨c, hmem⟩
            have hcard : (grid W H \ insert c seen).card =
                (grid W H \ seen).card - 1 := by
              rw [Finset.sdiff_insert, Finset.card_erase_of_mem hmem]
            have hnb := neighborsOf_length_le W H c.1 c.2
            have hq' : ∀ x ∈ rest ++ neighborsOf W H c.1 c.2,
                x ∈ grid W H := by
              intro x hx
              rcases List.mem_append.1 hx with hx | hx
              · exact hq x (List.mem_cons_of_mem _ hx)
              · exact neighborsOf_mem_grid hx
            by_cases hrev : c ∈ db.revealed
            · rw [if_pos hrev] at h
              refine ih _ _ _ _ _ hq' ?_ h
              simp only [List.length_append]
              simp only [List.length_cons] at hP
              omega
            · rw [if_neg hrev] at h
              by_cases hf2 : fails (step + 1)
              · rw [if_pos hf2] at h
                simp at h
              · rw [if_neg hf2] at h
                refine ih _ _ _ _ _ hq' ?_ h
                simp only [List.length_append]
                simp only [List.length_cons] at hP
                omega
      · rw [if_neg hlen] at h
        simp at h

theorem bfsLoop_ok_spec (fails : Nat → Bool) (qty : Int) (W H : Nat)
    (eid : String) :
    ∀ (fuel : Nat) (q : List Cell) (seen : Finset Cell) (db : DB)
      (alloc : List Cell) (step : Nat) (db' : DB) (alloc' : List Cell)
      (step' : Nat),
      (∀ c ∈ q, c ∈ grid W H) →
      (∀ p ∈ db.cellAllocs, p.1 ∈ db.revealed) →
      bfsLoop fails qty W H eid fuel q seen db alloc step =
        .ok (db', alloc', step') →
      ∃ L : List Cell,
        alloc' = alloc ++ L ∧ L.Nodup ∧
        (∀ c ∈ L, c ∈ grid W H ∧ c ∉ db.revealed) ∧
        db'.revealed = db.revealed ∪ L.toFinset ∧
        db'.cellAllocs = db.cellAllocs ++ L.map (fun c => (c, eid)) ∧
        db'.processedEvents = db.processedEvents ∧
        db'.donations = db.donations := by
  intro fuel
  induction fuel with
  | zero =>
    intro q seen db alloc step db' alloc' step' hq hWF h
    simp [bfsLoop] at h
  | succ fuel ih =>
    intro q seen db alloc step db' alloc' step' hq hWF h
    cases q with
    | nil =>
      simp [bfsLoop] at h
      obtain ⟨h1, h2, h3⟩ := h
      subst h1
      subst h2
      exact ⟨[], by simp⟩
    | cons c rest =>
      rw [bfsLoop] at h
      by_cases hlen : (alloc.length : Int) < qty
      · rw [if_pos hlen] at h
        by_cases hseen : c ∈ seen
        · rw [if_pos hseen] at h
          exact ih _ _ _ _ _ _ _ _
            (fun x hx => hq x (List.mem_cons_of_mem _ hx)) hWF h
        · rw [if_neg hseen] at h
          by_cases hf : fails step
          · rw [if_pos hf] at h
            exact absurd h (by simp)
          · rw [if_neg hf] at h
            have hcg : c ∈ grid W H := hq c (List.mem_cons_self _ _)
            have hq' : ∀ x ∈ rest ++ neighborsOf W H c.1 c.2,
                x ∈ grid W H := by
              intro x hx
              rcases List.mem_append.1 hx with hx | hx
              · exact hq x (List.mem_cons_of_mem _ hx)
              · exact neighborsOf_mem_grid hx
            by_cases hrev : c ∈ db.revealed
            · rw [if_pos hrev] at h
              exact ih _ _ _ _ _ _ _ _ hq' hWF h
            · rw [if_neg hrev] at h
              by_cases hf2 : fails (step + 1)
              · rw [if_pos hf2] at h
                exact absurd h (by simp)
              · rw [if_neg hf2] at h
                have hins : insertCellAlloc db.cellAllocs c eid =
                    db.cellAllocs ++ [(c, eid)] := by
                  have hno : ¬ (db.cellAllocs.any
                      (fun p => decide (p.1 = c)) = true) := by
                    simp only [List.any_eq_true, decide_eq_true_eq]
                    rintro ⟨p, hp, hpc⟩
                    exact hrev (hpc ▸ hWF p hp)
                  unfold insertCellAlloc
                  rw [if_neg hno]
                have hWF2 : ∀ p ∈ (insertCellAlloc db.cellAllocs c eid),
                    p.1 ∈ insert c db.revealed := by
                  intro p hp
                  rw [hins] at hp
                  rcases List.mem_append.1 hp with hp | hp
                  · exact Finset.mem_insert_of_mem (hWF p hp)
                  · simp only [List.mem_singleton] at hp
                    rw [hp]
                    exact Finset.mem_insert_self _ _
                obtain ⟨L, hL1, hL2, hL3, hL4, hL5, hL6, hL7⟩ :=
                  ih _ _ _ _ _ _ _ _ hq' hWF2 h
                refine ⟨c :: L, ?_, ?_, ?_, ?_, ?_, hL6, hL7⟩
                · rw [hL1]
                  simp
                · refine List.nodup_cons.2 ⟨?_, hL2⟩
                  intro hc
                  exact (hL3 c hc).2 (Finset.mem_insert_self _ _)
                · intro x hx
                  rcases List.mem_cons.1 hx with hx | hx
                  · subst hx
                    exact ⟨hcg, hrev⟩
                  · refine ⟨(hL3 x hx).1, fun hxr => ?_⟩
                    exact (hL3 x hx).2 (Finset.mem_insert_of_mem hxr)
                · rw [hL4]
                  simp only [List.toFinset_cons]
                  rw [Finset.union_insert, Finset.insert_union]
                · rw [hL5, hins]
                  simp
      · rw [if_neg hlen] at h
        simp at h
        obtain ⟨h1, h2, h3⟩ := h
        subst h1
        subst h2
        exact ⟨[], by simp⟩

theorem bfsLoop_closure (fails : Nat → Bool) (qty : Int) (W H : Nat)
    (eid : String) :
    ∀ (fuel : Nat) (q : List Cell) (seen : Finset Cell) (db : DB)
      (alloc : List Cell) (step : Nat) (db' : DB) (alloc' : List Cell)
      (step' : Nat),
      (∀ c ∈ q, c ∈ grid W H) →
      ((alloc.length : Int) + ((grid W H \ db.revealed).card : Int) < qty) →
      bfsLoop fails qty W H eid fuel q seen db alloc step =
        .ok (db', alloc', step') →
      ∃ seen' : Finset Cell,
        seen ⊆ seen' ∧ (∀ c ∈ q, c ∈ seen') ∧
        (∀ c ∈ seen', c ∉ seen → c ∈ db'.revealed) ∧
        (∀ c ∈ seen', c ∉ seen →
          ∀ n ∈ neighborsOf W H c.1 c.2, n ∈ seen') := by
  intro fuel
  induction fuel with
  | zero =>
    intro q seen db alloc step db' alloc' step' hq hNE h
    simp [bfsLoop] at h
  | succ fuel ih =>
    intro q seen db alloc step db' alloc' step' hq hNE h
    cases q with
    | nil =>
      refine ⟨seen, Finset.Subset.refl _, by simp, ?_, ?_⟩ <;>
        exact fun c hc hn => absurd hc hn
    | cons c rest =>
      rw [bfsLoop] at h
      by_cases hlen : (alloc.length : Int) < qty
      swap
      · exfalso
        omega
      rw [if_pos hlen] at h
      by_cases hseen : c ∈ seen
      · rw [if_pos hseen] at h
        obtain ⟨s2, hsub, hmem, hrev2, hcl2⟩ := ih _ _ _ _ _ _ _ _
          (fun x hx => hq x (List.mem_cons_of_mem _ hx)) hNE h
        refine ⟨s2, hsub, ?_, hrev2, hcl2⟩
        intro x hx
        rcases List.mem_cons.1 hx with hx | hx
        · subst hx
          exact hsub hseen
        · exact hmem x hx
      · rw [if_neg hseen] at h
        by_cases hf : fails step
        · rw [if_pos hf] at h
          exact absurd h (by simp)
        · rw [if_neg hf] at h
          have hq' : ∀ x ∈ rest ++ neighborsOf W H c.1 c.2,
              x ∈ grid W H := by
            intro x hx
            rcases List.mem_append.1 hx with hx | hx
            · exact hq x (List.mem_cons_of_mem _ hx)
            · exact neighborsOf_mem_grid hx
          by_cases hrev : c ∈ db.revealed
          · rw [if_pos hrev] at h
            obtain ⟨s2, hsub, hmem, hrev2, hcl2⟩ :=
              ih _ _ _ _ _ _ _ _ hq' hNE h
            have hcs2 : c ∈ s2 := hsub (Finset.mem_insert_self _ _)
            refine ⟨s2, Finset.Subset.trans (Finset.subset_insert _ _) hsub,
              ?_, ?_, ?_⟩
            · intro x hx
              rcases List.mem_cons.1 hx with hx | hx
              · subst hx
                exact hcs2
              · exact hmem x (List.mem_append_left _ hx)
            · intro x hx hxs
              by_cases hxc : x = c
              · subst hxc
                exact bfsLoop_revealed_mono fails qty W H eid
                  _ _ _ _ _ _ _ _ _ h hrev
              · exact hrev2 x hx (by simp [Finset.mem_insert, hxc, hxs])
            · intro x hx hxs n hn
              by_cases hxc : x = c
              · subst hxc
                exact hmem n (List.mem_append_right _ hn)
              · exact hcl2 x hx (by simp [Finset.mem_insert, hxc, hxs]) n hn
          · rw [if_neg hrev] at h
            by_cases hf2 : fails (step + 1)
            · rw [if_pos hf2] at h
              exact absurd h (by simp)
            · rw [if_neg hf2] at h
              have hcg : c ∈ grid W H := hq c (List.mem_cons_self _ _)
              have hmemd : c ∈ grid W H \ db.revealed :=
                Finset.mem_sdiff.2 ⟨hcg, hrev⟩
              have hposd : 0 < (grid W H \ db.revealed).card :=
                Finset.card_pos.2 ⟨c, hmemd⟩
              have hcard : (grid W H \ insert c db.revealed).card =
                  (grid W H \ db.revealed).card - 1 := by
                rw [Finset.sdiff_insert, Finset.card_erase_of_mem hmemd]
              have hNE2 : (((alloc ++ [c]).length : Int) +
                  ((grid W H \ insert c db.revealed).card : Int) < qty) := by
                simp only [List.length_append, List.length_cons,
                  List.length_nil, hcard]
                push_cast
                omega
              have hNE2' : (((alloc ++ [c]).length : Int) +
                  ((grid W H \ ({ db with
                      revealed := insert c db.revealed,
                      cellAllocs := insertCellAlloc db.cellAllocs c eid } :
                    DB).revealed).card : Int) < qty) := hNE2
              obtain ⟨s2, hsub, hmem, hrev2, hcl2⟩ :=
                ih _ _ _ _ _ _ _ _ hq' hNE2' h
              have hcs2 : c ∈ s2 := hsub (Finset.mem_insert_self _ _)
              refine ⟨s2, Finset.Subset.trans (Finset.subset_insert _ _) hsub,
                ?_, ?_, ?_⟩
              · intro x hx
                rcases List.mem_cons.1 hx with hx | hx
                · subst hx
                  exact hcs2
                · exact hmem x (List.mem_append_left _ hx)
              · intro x hx hxs
                by_cases hxc : x = c
                · subst hxc
                  refine bfsLoop_revealed_mono fails qty W H eid
                    _ _ _ _ _ _ _ _ _ h ?_
                  exact Finset.mem_insert_self _ _
                · exact hrev2 x hx (by simp [Finset.mem_insert, hxc, hxs])
              · intro x hx hxs n hn
                by_cases hxc : x = c
                · subst hxc
                  exact hmem n (List.mem_append_right _ hn)
                · exact hcl2 x hx (by simp [Finset.mem_insert, hxc, hxs]) n hn

end Pixel

namespace Pixel

/-! ### Invariants of the db.js outer attempts loop -/

theorem allocOuter_ne_qfail (qty : Int) (W H : Nat) (eid : String)
    (innerFuel : Nat) :
    ∀ (n : Nat) (seeds : Nat → Nat × Nat) (db : DB) (alloc : List Cell)
      (step : Nat),
      allocOuter noFail qty W H eid innerFuel seeds n db alloc step ≠
        .error .qfail := by
  intro n
  induction n with
  | zero =>
    intro seeds db alloc step h
    simp [allocOuter] at h
  | succ n ih =>
    intro seeds db alloc step h
    rw [allocOuter] at h
    by_cases hlen : (alloc.length : Int) < qty
    · rw [if_pos hlen] at h
      rcases hb : bfsLoop noFail qty W H eid innerFuel
          [(((seeds 0).1 % W : Nat), ((seeds 0).2 % H : Nat))] ∅ db alloc
          step with e | v
      · cases e with
        | qfail => exact bfsLoop_ne_qfail qty W H eid _ _ _ _ _ _ hb
        | fuelOut =>
          rw [hb] at h
          simp at h
      · obtain ⟨db1, alloc1, step1⟩ := v
        rw [hb] at h
        exact ih _ _ _ _ h
    · rw [if_neg hlen] at h
      simp at h

theorem allocOuter_ne_fuelOut (fails : Nat → Bool) (qty : Int) (W H : Nat)
    (eid : String) (innerFuel : Nat) (hW : 0 < W) (hH : 0 < H)
    (hF : 4 * (W * H) + 1 < innerFuel) :
    ∀ (n : Nat) (seeds : Nat → Nat × Nat) (db : DB) (alloc : List Cell)
      (step : Nat),
      allocOuter fails qty W H eid innerFuel seeds n db alloc step ≠
        .error .fuelOut := by
  intro n
  induction n with
  | zero =>
    intro seeds db alloc step h
    simp [allocOuter] at h
  | succ n ih =>
    intro seeds db alloc step h
    rw [allocOuter] at h
    by_cases hlen : (alloc.length : Int) < qty
    · rw [if_pos hlen] at h
      rcases hb : bfsLoop fails qty W H eid innerFuel
          [(((seeds 0).1 % W : Nat), ((seeds 0).2 % H : Nat))] ∅ db alloc
          step with e | v
      · cases e with
        | qfail =>
          rw [hb] at h
          simp at h
        | fuelOut =>
          refine bfsLoop_ne_fuelOut fails qty W H eid innerFuel _ _ _ _ _
            ?_ ?_ hb
          · intro c hc
            simp only [List.mem_singleton] at hc
            subst hc
            exact seed_mem_grid hW hH _ _
          · rw [Finset.sdiff_empty, card_grid]
            simpa using hF
      · obtain ⟨db1, alloc1, step1⟩ := v
        rw [hb] at h
        exact ih _ _ _ _ h
    · rw [if_neg hlen] at h
      simp at h

theorem allocOuter_length_le (fails : Nat → Bool) (qty : Int) (W H : Nat)
    (eid : String) (innerFuel : Nat) :
    ∀ (n : Nat) (seeds : Nat → Nat × Nat) (db : DB) (alloc : List Cell)
      (step : Nat) (db' : DB) (alloc' : List Cell) (rem step' : Nat),
      (alloc.length : Int) ≤ qty →
      allocOuter fails qty W H eid innerFuel seeds n db alloc step =
        .ok (db', alloc', rem, step') →
      (alloc'.length : Int) ≤ qty := by
  intro n
  induction n with
  | zero =>
    intro seeds db alloc step db' alloc' rem step' hle h
    simp [allocOuter] at h
    obtain ⟨h1, h2, h3, h4⟩ := h
    subst h2
    exact hle
  | succ n ih =>
    intro seeds db alloc step db' alloc' rem step' hle h
    rw [allocOuter] at h
    by_cases hlen : (alloc.length : Int) < qty
    · rw [if_pos hlen] at h
      rcases hb : bfsLoop fails qty W H eid innerFuel
          [(((seeds 0).1 % W : Nat), ((seeds 0).2 % H : Nat))] ∅ db alloc
          step with e | v
      · rw [hb] at h
        simp at h
      · obtain ⟨db1, alloc1, step1⟩ := v
        rw [hb] at h
        exact ih _ _ _ _ _ _ _ _
          (bfsLoop_length_le fails qty W H eid _ _ _ _ _ _ _ _ _ hle hb) h
    · rw [if_neg hlen] at h
      simp at h
      obtain ⟨h1, h2, h3, h4⟩ := h
      subst h2
      exact hle

theorem allocOuter_stop (fails : Nat → Bool) (qty : Int) (W H : Nat)
    (eid : String) (innerFuel : Nat) :
    ∀ (n : Nat) (seeds : Nat → Nat × Nat) (db : DB) (alloc : List Cell)
      (step : Nat) (db' : DB) (alloc' : List Cell) (rem step' : Nat),
      allocOuter fails qty W H eid innerFuel seeds n db alloc step =
        .ok (db', alloc', rem, step') →
      qty ≤ (alloc'.length : Int) ∨ rem = 0 := by
  intro n
  induction n with
  | zero =>
    intro seeds db alloc step db' alloc' rem step' h
    simp [allocOuter] at h
    obtain ⟨h1, h2, h3, h4⟩ := h
    subst h3
    exact Or.inr rfl
  | succ n ih =>
    intro seeds db alloc step db' alloc' rem step' h
    rw [allocOuter] at h
    by_cases hlen : (alloc.length : Int) < qty
    · rw [if_pos hlen] at h
      rcases hb : bfsLoop fails qty W H eid innerFuel
          [(((seeds 0).1 % W : Nat), ((seeds 0).2 % H : Nat))] ∅ db alloc
          step with e | v
      · rw [hb] at h
        simp at h
      · obtain ⟨db1, alloc1, step1⟩ := v
        rw [hb] at h
        exact ih _ _ _ _ _ _ _ _ h
    · rw [if_neg hlen] at h
      simp at h
      obtain ⟨h1, h2, h3, h4⟩ := h
      subst h2
      exact Or.inl (le_of_not_lt hlen)

theorem allocOuter_revealed_mono (fails : Nat → Bool) (qty : Int)
    (W H : Nat) (eid : String) (innerFuel : Nat) :
    ∀ (n : Nat) (seeds : Nat → Nat × Nat) (db : DB) (alloc : List Cell)
      (step : Nat) (db' : DB) (alloc' : List Cell) (rem step' : Nat),
      allocOuter fails qty W H eid innerFuel seeds n db alloc step =
        .ok (db', alloc', rem, step') →
      db.revealed ⊆ db'.revealed := by
  intro n
  induction n with
  | zero =>
    intro seeds db alloc step db' alloc' rem step' h
    simp [allocOuter] at h
    obtain ⟨h1, h2, h3, h4⟩ := h
    subst h1
    exact Finset.Subset.refl _
  | succ n ih =>
    intro seeds db alloc step db' alloc' rem step' h
    rw [allocOuter] at h
    by_cases hlen : (alloc.length : Int) < qty
    · rw [if_pos hlen] at h
      rcases hb : bfsLoop fails qty W H eid innerFuel
          [(((seeds 0).1 % W : Nat), ((seeds 0).2 % H : Nat))] ∅ db alloc
          step with e | v
      · rw [hb] at h
        simp at h
      · obtain ⟨db1, alloc1, step1⟩ := v
        rw [hb] at h
        exact Finset.Subset.trans
          (bfsLoop_revealed_mono fails qty W H eid _ _ _ _ _ _ _ _ _ hb)
          (ih _ _ _ _ _ _ _ _ h)
    · rw [if_neg hlen] at h
      simp at h
      obtain ⟨h1, h2, h3, h4⟩ := h
      subst h1
      exact Finset.Subset.refl _

theorem allocOuter_frame (fails : Nat → Bool) (qty : Int) (W H : Nat)
    (eid : String) (innerFuel : Nat) :
    ∀ (n : Nat) (seeds : Nat → Nat × Nat) (db : DB) (alloc : List Cell)
      (step : Nat) (db' : DB) (alloc' : List Cell) (rem step' : Nat),
      allocOuter fails qty W H eid innerFuel seeds n db alloc step =
        .ok (db', alloc', rem, step') →
      db'.processedEvents = db.processedEvents ∧
        db'.donations = db.donations := by
  intro n
  induction n with
  | zero =>
    intro seeds db alloc step db' alloc' rem step' h
    simp [allocOuter] at h
    obtain ⟨h1, h2, h3, h4⟩ := h
    subst h1
    exact ⟨rfl, rfl⟩
  | succ n ih =>
    intro seeds db alloc step db' alloc' rem step' h
    rw [allocOuter] at h
    by_cases hlen : (alloc.length : Int) < qty
    · rw [if_pos hlen] at h
      rcases hb : bfsLoop fails qty W H eid innerFuel
          [(((seeds 0).1 % W : Nat), ((seeds 0).2 % H : Nat))] ∅ db alloc
          step with e | v
      · rw [hb] at h
        simp at h
      · obtain ⟨db1, alloc1, step1⟩ := v
        rw [hb] at h
        obtain ⟨hp1, hd1⟩ := bfsLoop_frame fails qty W H eid _ _ _ _ _ _ _ _ _ hb
        obtain ⟨hp2, hd2⟩ := ih _ _ _ _ _ _ _ _ h
        exact ⟨hp2.trans hp1, hd2.trans hd1⟩
    · rw [if_neg hlen] at h
      simp at h
      obtain ⟨h1, h2, h3, h4⟩ := h
      subst h1
      exact ⟨rfl, rfl⟩

end Pixel

namespace Pixel

theorem allocOuter_ok_spec (fails : Nat → Bool) (qty : Int) (W H : Nat)
    (eid : String) (innerFuel : Nat) (hW : 0 < W) (hH : 0 < H) :
    ∀ (n : Nat) (seeds : Nat → Nat × Nat) (db : DB) (alloc : List Cell)
      (step : Nat) (db' : DB) (alloc' : List Cell) (rem step' : Nat),
      (∀ p ∈ db.cellAllocs, p.1 ∈ db.revealed) →
      allocOuter fails qty W H eid innerFuel seeds n db alloc step =
        .ok (db', alloc', rem, step') →
      ∃ L : List Cell,
        alloc' = alloc ++ L ∧ L.Nodup ∧
        (∀ c ∈ L, c ∈ grid W H ∧ c ∉ db.revealed) ∧
        db'.revealed = db.revealed ∪ L.toFinset ∧
        db'.cellAllocs = db.cellAllocs ++ L.map (fun c => (c, eid)) ∧
        db'.processedEvents = db.processedEvents ∧
        db'.donations = db.donations := by
  intro n
  induction n with
  | zero =>
    intro seeds db alloc step db' alloc' rem step' hWF h
    simp [allocOuter] at h
    obtain ⟨h1, h2, h3, h4⟩ := h
    subst h1
    subst h2
    exact ⟨[], by simp⟩
  | succ n ih =>
    intro seeds db alloc step db' alloc' rem step' hWF h
    rw [allocOuter] at h
    by_cases hlen : (alloc.length : Int) < qty
    · rw [if_pos hlen] at h
      rcases hb : bfsLoop fails qty W H eid innerFuel
          [(((seeds 0).1 % W : Nat), ((seeds 0).2 % H : Nat))] ∅ db alloc
          step with e | v
      · rw [hb] at h
        simp at h
      · obtain ⟨db1, alloc1, step1⟩ := v
        rw [hb] at h
        have hq : ∀ c ∈ [((((seeds 0).1 % W : Nat) : Int),
            (((seeds 0).2 % H : Nat) : Int))], c ∈ grid W H := by
          intro c hc
          simp only [List.mem_singleton] at hc
          subst hc
          exact seed_mem_grid hW hH _ _
        obtain ⟨L1, hA1, hA2, hA3, hA4, hA5, hA6, hA7⟩ :=
          bfsLoop_ok_spec fails qty W H eid _ _ _ _ _ _ _ _ _ hq hWF hb
        have hWF1 : ∀ p ∈ db1.cellAllocs, p.1 ∈ db1.revealed := by
          intro p hp
          rw [hA5] at hp
          rw [hA4]
          rcases List.mem_append.1 hp with hp | hp
          · exact Finset.mem_union_left _ (hWF p hp)
          · obtain ⟨c, hc, hceq⟩ := List.mem_map.1 hp
            rw [← hceq]
            exact Finset.mem_union_right _ (List.mem_toFinset.2 hc)
        obtain ⟨L2, hB1, hB2, hB3, hB4, hB5, hB6, hB7⟩ :=
          ih _ _ _ _ _ _ _ _ hWF1 h
        refine ⟨L1 ++ L2, ?_, ?_, ?_, ?_, ?_, ?_, ?_⟩
        · rw [hB1, hA1, List.append_assoc]
        · refine List.Nodup.append hA2 hB2 ?_
          intro x hx1 hx2
          have hx2r : x ∉ db1.revealed := (hB3 x hx2).2
          rw [hA4] at hx2r
          exact hx2r (Finset.mem_union_right _ (List.mem_toFinset.2 hx1))
        · intro x hx
          rcases List.mem_append.1 hx with hx | hx
          · exact hA3 x hx
          · refine ⟨(hB3 x hx).1, fun hxr => ?_⟩
            have hx2r : x ∉ db1.revealed := (hB3 x hx).2
            rw [hA4] at hx2r
            exact hx2r (Finset.mem_union_left _ hxr)
        · rw [hB4, hA4, List.toFinset_append, Finset.union_assoc]
        · rw [hB5, hA5, List.map_append, List.append_assoc]
        · rw [hB6, hA6]
        · rw [hB7, hA7]
    · rw [if_neg hlen] at h
      simp at h
      obtain ⟨h1, h2, h3, h4⟩ := h
      subst h1
      subst h2
      exact ⟨[], by simp⟩

theorem allocOuter_stable (qty : Int) (W H : Nat) (eid : String)
    (innerFuel : Nat) (hW : 0 < W) (hH : 0 < H)
    (hF : 4 * (W * H) + 1 < innerFuel) :
    ∀ (n : Nat) (seeds : Nat → Nat × Nat) (db : DB) (alloc : List Cell)
      (step : Nat),
      grid W H ⊆ db.revealed →
      (∀ p ∈ db.cellAllocs, p.1 ∈ db.revealed) →
      ∃ rem step',
        allocOuter noFail qty W H eid innerFuel seeds n db alloc step =
          .ok (db, alloc, rem, step') := by
  intro n
  induction n with
  | zero =>
    intro seeds db alloc step hsub hWF
    exact ⟨0, step, by rw [allocOuter]⟩
  | succ n ih =>
    intro seeds db alloc step hsub hWF
    by_cases hlen : (alloc.length : Int) < qty
    · rcases hb : bfsLoop noFail qty W H eid innerFuel
          [(((seeds 0).1 % W : Nat), ((seeds 0).2 % H : Nat))] ∅ db alloc
          step with e | v
      · exfalso
        cases e with
        | qfail => exact bfsLoop_ne_qfail qty W H eid _ _ _ _ _ _ hb
        | fuelOut =>
          refine bfsLoop_ne_fuelOut noFail qty W H eid innerFuel _ _ _ _ _
            ?_ ?_ hb
          · intro c hc
            simp only [List.mem_singleton] at hc
            subst hc
            exact seed_mem_grid hW hH _ _
          · rw [Finset.sdiff_empty, card_grid]
            simpa using hF
      · obtain ⟨db1, alloc1, step1⟩ := v
        have hq : ∀ c ∈ [((((seeds 0).1 % W : Nat) : Int),
            (((seeds 0).2 % H : Nat) : Int))], c ∈ grid W H := by
          intro c hc
          simp only [List.mem_singleton] at hc
          subst hc
          exact seed_mem_grid hW hH _ _
        obtain ⟨L, hA1, hA2, hA3, hA4, hA5, hA6, hA7⟩ :=
          bfsLoop_ok_spec noFail qty W H eid _ _ _ _ _ _ _ _ _ hq hWF hb
        have hLnil : L = [] := by
          rw [List.eq_nil_iff_forall_not_mem]
          intro x hx
          exact (hA3 x hx).2 (hsub (hA3 x hx).1)
        subst hLnil
        have halloc1 : alloc1 = alloc := by
          rw [hA1, List.append_nil]
        have hdb1 : db1 = db := by
          refine dbExt ?_ ?_ hA6 hA7
          · rw [hA4]
            simp
          · rw [hA5]
            simp
        subst halloc1
        subst hdb1
        obtain ⟨rem, step2, hrec⟩ :=
          ih (fun i => seeds (i + 1)) db1 alloc1 step1 hsub hWF
        refine ⟨rem, step2, ?_⟩
        rw [allocOuter, if_pos hlen, hb]
        exact hrec
    · exact ⟨n + 1, step, by rw [allocOuter, if_neg hlen]⟩

end Pixel

namespace Pixel

/-! ### Top-level facts about `allocateCellsForEventAtomic` -/

theorem alloc_eq_of_outer (fails : Nat → Bool) (qty : Int) (W H : Nat)
    (eid : String) (seeds : Nat → Nat × Nat) (innerFuel : Nat) (db : DB)
    (db1 : DB) (alloc1 : List Cell) (rem st : Nat)
    (h : allocOuter fails qty W H eid innerFuel seeds (W * H * 2) db [] 1 =
      .ok (db1, alloc1, rem, st))
    (hc0 : fails 0 = false) (hcst : fails st = false) :
    allocateCellsForEventAtomic fails qty W H eid seeds innerFuel db =
      .ok db1 alloc1 := by
  unfold allocateCellsForEventAtomic
  rw [if_neg (by simp [hc0]), h]
  simp [hcst]

theorem alloc_ok_inv (fails : Nat → Bool) (qty : Int) (W H : Nat)
    (eid : String) (seeds : Nat → Nat × Nat) (innerFuel : Nat) (db : DB)
    (db' : DB) (cells : List Cell)
    (h : allocateCellsForEventAtomic fails qty W H eid seeds innerFuel db =
      .ok db' cells) :
    ∃ rem st,
      allocOuter fails qty W H eid innerFuel seeds (W * H * 2) db [] 1 =
        .ok (db', cells, rem, st) := by
  unfold allocateCellsForEventAtomic at h
  by_cases h0 : fails 0
  · rw [if_pos h0] at h
    simp at h
  · rw [if_neg h0] at h
    rcases hb : allocOuter fails qty W H eid innerFuel seeds (W * H * 2)
        db [] 1 with e | v
    · rw [hb] at h
      cases e <;> simp at h
    · obtain ⟨db1, alloc1, rem, st⟩ := v
      rw [hb] at h
      by_cases hc : fails st
      · simp [hc] at h
      · simp [hc] at h
        obtain ⟨hdb, hcells⟩ := h
        subst hdb
        subst hcells
        exact ⟨rem, st, rfl⟩

theorem alloc_failed_eq (fails : Nat → Bool) (qty : Int) (W H : Nat)
    (eid : String) (seeds : Nat → Nat × Nat) (innerFuel : Nat) (db d : DB)
    (h : allocateCellsForEventAtomic fails qty W H eid seeds innerFuel db =
      .failed d) : d = db := by
  unfold allocateCellsForEventAtomic at h
  by_cases h0 : fails 0
  · rw [if_pos h0] at h
    simp at h
    exact h.symm
  · rw [if_neg h0] at h
    rcases hb : allocOuter fails qty W H eid innerFuel seeds (W * H * 2)
        db [] 1 with e | v
    · rw [hb] at h
      cases e with
      | qfail =>
        simp at h
        exact h.symm
      | fuelOut => simp at h
    · obtain ⟨db1, alloc1, rem, st⟩ := v
      rw [hb] at h
      by_cases hc : fails st
      · simp [hc] at h
        exact h.symm
      · simp [hc] at h

theorem alloc_qty_nonpos (qty : Int) (W H : Nat) (eid : String)
    (seeds : Nat → Nat × Nat) (innerFuel : Nat) (db : DB) (hq : qty ≤ 0) :
    allocateCellsForEventAtomic noFail qty W H eid seeds innerFuel db =
      .ok db [] := by
  have hlen : ¬ ((([] : List Cell).length : Int) < qty) := by
    simp
    omega
  rcases Nat.eq_zero_or_pos (W * H * 2) with hWH | hWH
  · refine alloc_eq_of_outer noFail qty W H eid seeds innerFuel db db [] 0 1
      ?_ rfl rfl
    rw [hWH, allocOuter]
  · obtain ⟨m, hm⟩ : ∃ m, W * H * 2 = m + 1 := ⟨W * H * 2 - 1, by omega⟩
    refine alloc_eq_of_outer noFail qty W H eid seeds innerFuel db db []
      (m + 1) 1 ?_ rfl rfl
    rw [hm, allocOuter, if_neg hlen]

theorem alloc_ok_spec (fails : Nat → Bool) (qty : Int) (W H : Nat)
    (eid : String) (seeds : Nat → Nat × Nat) (innerFuel : Nat) (db : DB)
    (db' : DB) (cells : List Cell)
    (hWF : ∀ p ∈ db.cellAllocs, p.1 ∈ db.revealed)
    (h : allocateCellsForEventAtomic fails qty W H eid seeds innerFuel db =
      .ok db' cells) :
    cells.Nodup ∧ (∀ c ∈ cells, c ∈ grid W H ∧ c ∉ db.revealed) ∧
      db'.revealed = db.revealed ∪ cells.toFinset ∧
      db'.cellAllocs = db.cellAllocs ++ cells.map (fun c => (c, eid)) ∧
      db'.processedEvents = db.processedEvents ∧
      db'.donations = db.donations := by
  obtain ⟨rem, st, hb⟩ := alloc_ok_inv fails qty W H eid seeds innerFuel db
    db' cells h
  rcases Nat.eq_zero_or_pos (W * H) with hWH | hWH
  · have h2 : W * H * 2 = 0 := by omega
    rw [h2, allocOuter] at hb
    simp at hb
    obtain ⟨h1, h2, h3, h4⟩ := hb
    subst h1
    subst h2
    exact ⟨by simp, by simp, by simp, by simp, rfl, rfl⟩
  · have hW : 0 < W := by
      rcases Nat.eq_zero_or_pos W with h0 | h0
      · rw [h0] at hWH
        simp at hWH
      · exact h0
    have hH : 0 < H := by
      rcases Nat.eq_zero_or_pos H with h0 | h0
      · rw [h0] at hWH
        simp at hWH
      · exact h0
    obtain ⟨L, hA1, hA2, hA3, hA4, hA5, hA6, hA7⟩ :=
      allocOuter_ok_spec fails qty W H eid innerFuel hW hH _ _ _ _ _ _ _ _ _
        hWF hb
    have hL : cells = L := by
      rw [hA1, List.nil_append]
    subst hL
    exact ⟨hA2, hA3, hA4, hA5, hA6, hA7⟩

theorem alloc_length_le (fails : Nat → Bool) (qty : Int) (W H : Nat)
    (eid : String) (seeds : Nat → Nat × Nat) (innerFuel : Nat) (db : DB)
    (db' : DB) (cells : List Cell) (h0 : 0 ≤ qty)
    (h : allocateCellsForEventAtomic fails qty W H eid seeds innerFuel db =
      .ok db' cells) :
    (cells.length : Int) ≤ qty := by
  obtain ⟨rem, st, hb⟩ := alloc_ok_inv fails qty W H eid seeds innerFuel db
    db' cells h
  exact allocOuter_length_le fails qty W H eid innerFuel _ _ _ _ _ _ _ _ _
    (by simpa using h0) hb

theorem alloc_ok_mono_frame (fails : Nat → Bool) (qty : Int) (W H : Nat)
    (eid : String) (seeds : Nat → Nat × Nat) (innerFuel : Nat) (db : DB)
    (db' : DB) (cells : List Cell)
    (h : allocateCellsForEventAtomic fails qty W H eid seeds innerFuel db =
      .ok db' cells) :
    db.revealed ⊆ db'.revealed ∧
      db'.processedEvents = db.processedEvents ∧
      db'.donations = db.donations := by
  obtain ⟨rem, st, hb⟩ := alloc_ok_inv fails qty W H eid seeds innerFuel db
    db' cells h
  exact ⟨allocOuter_revealed_mono fails qty W H eid innerFuel _ _ _ _ _ _ _
    _ _ hb, allocOuter_frame fails qty W H eid innerFuel _ _ _ _ _ _ _ _ _ hb⟩

theorem alloc_terminates (qty : Int) (W H : Nat) (eid : String)
    (seeds : Nat → Nat × Nat) (innerFuel : Nat) (db : DB)
    (hF : 4 * (W * H) + 1 < innerFuel) :
    ∃ db' cells,
      allocateCellsForEventAtomic noFail qty W H eid seeds innerFuel db =
        .ok db' cells := by
  rcases hb : allocOuter noFail qty W H eid innerFuel seeds (W * H * 2)
      db [] 1 with e | v
  · exfalso
    cases e with
    | qfail => exact allocOuter_ne_qfail qty W H eid innerFuel _ _ _ _ _ hb
    | fuelOut =>
      rcases Nat.eq_zero_or_pos (W * H) with hWH | hWH
      · have h2 : W * H * 2 = 0 := by omega
        rw [h2, allocOuter] at hb
        simp at hb
      · have hW : 0 < W := by
          rcases Nat.eq_zero_or_pos W with h0 | h0
          · rw [h0] at hWH
            simp at hWH
          · exact h0
        have hH : 0 < H := by
          rcases Nat.eq_zero_or_pos H with h0 | h0
          · rw [h0] at hWH
            simp at hWH
          · exact h0
        exact allocOuter_ne_fuelOut noFail qty W H eid innerFuel hW hH hF
          _ _ _ _ _ hb
  · obtain ⟨db1, alloc1, rem, st⟩ := v
    exact ⟨db1, alloc1, alloc_eq_of_outer noFail qty W H eid seeds innerFuel
      db db1 alloc1 rem st hb rfl rfl⟩

theorem alloc_exact_all (qty : Int) (W H : Nat) (eid : String)
    (seeds : Nat → Nat × Nat) (innerFuel : Nat) (db : DB)
    (hWF : ∀ p ∈ db.cellAllocs, p.1 ∈ db.revealed)
    (hcard : ((grid W H \ db.revealed).card : Int) < qty)
    (hF : 4 * (W * H) + 1 < innerFuel) :
    ∃ db' cells,
      allocateCellsForEventAtomic noFail qty W H eid seeds innerFuel db =
        .ok db' cells ∧
      cells.Nodup ∧ cells.toFinset = grid W H \ db.revealed := by
  rcases Nat.eq_zero_or_pos (W * H) with hWH | hWH
  · have hgr : grid W H = ∅ :=
      Finset.card_eq_zero.1 (by rw [card_grid]; exact hWH)
    have h2 : W * H * 2 = 0 := by omega
    refine ⟨db, [], ?_, List.nodup_nil, ?_⟩
    · refine alloc_eq_of_outer noFail qty W H eid seeds innerFuel db db []
        0 1 ?_ rfl rfl
      rw [h2, allocOuter]
    · rw [hgr]
      simp
  · have hW : 0 < W := by
      rcases Nat.eq_zero_or_pos W with h0 | h0
      · rw [h0] at hWH
        simp at hWH
      · exact h0
    have hH : 0 < H := by
      rcases Nat.eq_zero_or_pos H with h0 | h0
      · rw [h0] at hWH
        simp at hWH
      · exact h0
    obtain ⟨m, hm⟩ : ∃ m, W * H * 2 = m + 1 := ⟨W * H * 2 - 1, by omega⟩
    have hlen0 : ((([] : List Cell).length : Int) < qty) := by
      simp
      omega
    have hq : ∀ c ∈ [((((seeds 0).1 % W : Nat) : Int),
        (((seeds 0).2 % H : Nat) : Int))], c ∈ grid W H := by
      intro c hc
      simp only [List.mem_singleton] at hc
      subst hc
      exact seed_mem_grid hW hH _ _
    rcases hb : bfsLoop noFail qty W H eid innerFuel
        [(((seeds 0).1 % W : Nat), ((seeds 0).2 % H : Nat))] ∅ db [] 1
        with e | v
    · exfalso
      cases e with
      | qfail => exact bfsLoop_ne_qfail qty W H eid _ _ _ _ _ _ hb
      | fuelOut =>
        refine bfsLoop_ne_fuelOut noFail qty W H eid innerFuel _ _ _ _ _
          hq ?_ hb
        rw [Finset.sdiff_empty, card_grid]
        simpa using hF
    · obtain ⟨db1, alloc1, step1⟩ := v
      obtain ⟨L, hA1, hA2, hA3, hA4, hA5, hA6, hA7⟩ :=
        bfsLoop_ok_spec noFail qty W H eid _ _ _ _ _ _ _ _ _ hq hWF hb
      have hNE : ((([] : List Cell).length : Int) +
          ((grid W H \ db.revealed).card : Int) < qty) := by
        simpa using hcard
      obtain ⟨s2, hsub2, hmem2, hrev2, hcl2⟩ :=
        bfsLoop_closure noFail qty W H eid _ _ _ _ _ _ _ _ _ hq hNE hb
      have hclosed : ∀ c ∈ s2, ∀ n ∈ neighborsOf W H c.1 c.2, n ∈ s2 :=
        fun c hc n hn => hcl2 c hc (Finset.not_mem_empty c) n hn
      have hseedm : ((((seeds 0).1 % W : Nat) : Int),
          (((seeds 0).2 % H : Nat) : Int)) ∈ s2 :=
        hmem2 _ (by simp)
      have hcov : ∀ c ∈ grid W H, c ∈ s2 :=
        closed_grid_subset hclosed hseedm (seed_mem_grid hW hH _ _)
      have hrevall : ∀ c ∈ grid W H, c ∈ db1.revealed :=
        fun c hc => hrev2 c (hcov c hc) (Finset.not_mem_empty c)
      have hLset : L.toFinset = grid W H \ db.revealed := by
        apply Finset.Subset.antisymm
        · intro x hx
          rw [List.mem_toFinset] at hx
          exact Finset.mem_sdiff.2 ⟨(hA3 x hx).1, (hA3 x hx).2⟩
        · intro x hx
          obtain ⟨hxg, hxr⟩ := Finset.mem_sdiff.1 hx
          have hx1 : x ∈ db1.revealed := hrevall x hxg
          rw [hA4] at hx1
          rcases Finset.mem_union.1 hx1 with hx1 | hx1
          · exact absurd hx1 hxr
          · exact hx1
      have hsub1 : grid W H ⊆ db1.revealed := fun c hc => hrevall c hc
      have hWF1 : ∀ p ∈ db1.cellAllocs, p.1 ∈ db1.revealed := by
        intro p hp
        rw [hA5] at hp
        rw [hA4]
        rcases List.mem_append.1 hp with hp | hp
        · exact Finset.mem_union_left _ (hWF p hp)
        · obtain ⟨c, hc, hceq⟩ := List.mem_map.1 hp
          rw [← hceq]
          exact Finset.mem_union_right _ (List.mem_toFinset.2 hc)
      obtain ⟨rem, step2, hst⟩ := allocOuter_stable qty W H eid innerFuel
        hW hH hF m (fun i => seeds (i + 1)) db1 alloc1 step1 hsub1 hWF1
      have houter : allocOuter noFail qty W H eid innerFuel seeds
          (W * H * 2) db [] 1 = .ok (db1, alloc1, rem, step2) := by
        rw [hm, allocOuter, if_pos hlen0, hb]
        exact hst
      refine ⟨db1, alloc1, alloc_eq_of_outer noFail qty W H eid seeds
        innerFuel db db1 alloc1 rem step2 houter rfl rfl, ?_, ?_⟩
      · rw [hA1, List.nil_append]
        exact hA2
      · rw [hA1, List.nil_append]
        exact hLset

end Pixel

namespace Pixel

/-! ### Invariants of the in-memory allocator (server.js) -/

theorem bfsMem_length_le (qty : Int) (W H : Nat) :
    ∀ (fuel : Nat) (q rl cells rl' cells' : List Cell),
      (cells.length : Int) ≤ qty →
      bfsMem qty W H fuel q rl cells = .ok (rl', cells') →
      (cells'.length : Int) ≤ qty := by
  intro fuel
  induction fuel with
  | zero =>
    intro q rl cells rl' cells' hle h
    simp [bfsMem] at h
  | succ fuel ih =>
    intro q rl cells rl' cells' hle h
    cases q with
    | nil =>
      simp [bfsMem] at h
      obtain ⟨h1, h2⟩ := h
      subst h2
      exact hle
    | cons c rest =>
      rw [bfsMem] at h
      by_cases hlen : (cells.length : Int) < qty
      · rw [if_pos hlen] at h
        by_cases htk : takenMem rl c
        · rw [if_pos htk] at h
          exact ih _ _ _ _ _ hle h
        · rw [if_neg htk] at h
          refine ih _ _ _ _ _ ?_ h
          simp only [List.length_append, List.length_cons, List.length_nil]
          push_cast
          omega
      · rw [if_neg hlen] at h
        simp at h
        obtain ⟨h1, h2⟩ := h
        subst h2
        exact hle

theorem bfsMem_mono (qty : Int) (W H : Nat) :
    ∀ (fuel : Nat) (q rl cells rl' cells' : List Cell),
      bfsMem qty W H fuel q rl cells = .ok (rl', cells') →
      ∀ c ∈ rl, c ∈ rl' := by
  intro fuel
  induction fuel with
  | zero =>
    intro q rl cells rl' cells' h
    simp [bfsMem] at h
  | succ fuel ih =>
    intro q rl cells rl' cells' h
    cases q with
    | nil =>
      simp [bfsMem] at h
      obtain ⟨h1, h2⟩ := h
      subst h1
      exact fun c hc => hc
    | cons c rest =>
      rw [bfsMem] at h
      by_cases hlen : (cells.length : Int) < qty
      · rw [if_pos hlen] at h
        by_cases htk : takenMem rl c
        · rw [if_pos htk] at h
          exact ih _ _ _ _ _ h
        · rw [if_neg htk] at h
          intro x hx
          exact ih _ _ _ _ _ h x (List.mem_append_left _ hx)
      · rw [if_neg hlen] at h
        simp at h
        obtain ⟨h1, h2⟩ := h
        subst h1
        exact fun x hx => hx

theorem allocMemOuter_length_le (qty : Int) (W H : Nat) (innerFuel : Nat) :
    ∀ (n : Nat) (seeds : Nat → Nat × Nat) (rl cells rl' cells' : List Cell)
      (rem : Nat),
      (cells.length : Int) ≤ qty →
      allocMemOuter qty W H innerFuel seeds n rl cells =
        .ok (rl', cells', rem) →
      (cells'.length : Int) ≤ qty := by
  intro n
  induction n with
  | zero =>
    intro seeds rl cells rl' cells' rem hle h
    simp [allocMemOuter] at h
    obtain ⟨h1, h2, h3⟩ := h
    subst h2
    exact hle
  | succ n ih =>
    intro seeds rl cells rl' cells' rem hle h
    rw [allocMemOuter] at h
    by_cases hlen : (cells.length : Int) < qty
    · rw [if_pos hlen] at h
      by_cases htk : takenMem rl (((seeds 0).1 % W : Nat),
          ((seeds 0).2 % H : Nat))
      · rw [if_pos htk] at h
        exact ih _ _ _ _ _ _ hle h
      · rw [if_neg htk] at h
        rcases hb : bfsMem qty W H innerFuel
            [(((seeds 0).1 % W : Nat), ((seeds 0).2 % H : Nat))] rl cells
            with e | v
        · rw [hb] at h
          simp at h
        · obtain ⟨rl1, cells1⟩ := v
          rw [hb] at h
          exact ih _ _ _ _ _ _
            (bfsMem_length_le qty W H _ _ _ _ _ _ hle hb) h
    · rw [if_neg hlen] at h
      simp at h
      obtain ⟨h1, h2, h3⟩ := h
      subst h2
      exact hle

theorem allocMemOuter_stop (qty : Int) (W H : Nat) (innerFuel : Nat) :
    ∀ (n : Nat) (seeds : Nat → Nat × Nat) (rl cells rl' cells' : List Cell)
      (rem : Nat),
      allocMemOuter qty W H innerFuel seeds n rl cells =
        .ok (rl', cells', rem) →
      qty ≤ (cells'.length : Int) ∨ rem = 0 := by
  intro n
  induction n with
  | zero =>
    intro seeds rl cells rl' cells' rem h
    simp [allocMemOuter] at h
    obtain ⟨h1, h2, h3⟩ := h
    subst h3
    exact Or.inr rfl
  | succ n ih =>
    intro seeds rl cells rl' cells' rem h
    rw [allocMemOuter] at h
    by_cases hlen : (cells.length : Int) < qty
    · rw [if_pos hlen] at h
      by_cases htk : takenMem rl (((seeds 0).1 % W : Nat),
          ((seeds 0).2 % H : Nat))
      · rw [if_pos htk] at h
        exact ih _ _ _ _ _ _ h
      · rw [if_neg htk] at h
        rcases hb : bfsMem qty W H innerFuel
            [(((seeds 0).1 % W : Nat), ((seeds 0).2 % H : Nat))] rl cells
            with e | v
        · rw [hb] at h
          simp at h
        · obtain ⟨rl1, cells1⟩ := v
          rw [hb] at h
          exact ih _ _ _ _ _ _ h
    · rw [if_neg hlen] at h
      simp at h
      obtain ⟨h1, h2, h3⟩ := h
      subst h2
      exact Or.inl (le_of_not_lt hlen)

theorem allocMemOuter_mono (qty : Int) (W H : Nat) (innerFuel : Nat) :
    ∀ (n : Nat) (seeds : Nat → Nat × Nat) (rl cells rl' cells' : List Cell)
      (rem : Nat),
      allocMemOuter qty W H innerFuel seeds n rl cells =
        .ok (rl', cells', rem) →
      ∀ c ∈ rl, c ∈ rl' := by
  intro n
  induction n with
  | zero =>
    intro seeds rl cells rl' cells' rem h
    simp [allocMemOuter] at h
    obtain ⟨h1, h2, h3⟩ := h
    subst h1
    exact fun c hc => hc
  | succ n ih =>
    intro seeds rl cells rl' cells' rem h
    rw [allocMemOuter] at h
    by_cases hlen : (cells.length : Int) < qty
    · rw [if_pos hlen] at h
      by_cases htk : takenMem rl (((seeds 0).1 % W : Nat),
          ((seeds 0).2 % H : Nat))
      · rw [if_pos htk] at h
        exact ih _ _ _ _ _ _ h
      · rw [if_neg htk] at h
        rcases hb : bfsMem qty W H innerFuel
            [(((seeds 0).1 % W : Nat), ((seeds 0).2 % H : Nat))] rl cells
            with e | v
        · rw [hb] at h
          simp at h
        · obtain ⟨rl1, cells1⟩ := v
          rw [hb] at h
          intro x hx
          exact ih _ _ _ _ _ _ h x (bfsMem_mono qty W H _ _ _ _ _ _ hb x hx)
    · rw [if_neg hlen] at h
      simp at h
      obtain ⟨h1, h2, h3⟩ := h
      subst h1
      exact fun x hx => hx

theorem allocateCells_length_le (qty : Int) (W H : Nat)
    (seeds : Nat → Nat × Nat) (innerFuel : Nat) (rl rl' cells : List Cell)
    (rem : Nat) (h0 : 0 ≤ qty)
    (h : allocateCells qty W H seeds innerFuel rl = .ok (rl', cells, rem)) :
    (cells.length : Int) ≤ qty :=
  allocMemOuter_length_le qty W H innerFuel _ _ _ _ _ _ _ (by simpa using h0) h

theorem allocateCells_stop (qty : Int) (W H : Nat)
    (seeds : Nat → Nat × Nat) (innerFuel : Nat) (rl rl' cells : List Cell)
    (rem : Nat)
    (h : allocateCells qty W H seeds innerFuel rl = .ok (rl', cells, rem)) :
    qty ≤ (cells.length : Int) ∨ rem = 0 :=
  allocMemOuter_stop qty W H innerFuel _ _ _ _ _ _ _ h

theorem allocateCells_mono (qty : Int) (W H : Nat)
    (seeds : Nat → Nat × Nat) (innerFuel : Nat) (rl rl' cells : List Cell)
    (rem : Nat)
    (h : allocateCells qty W H seeds innerFuel rl = .ok (rl', cells, rem)) :
    ∀ c ∈ rl, c ∈ rl' :=
  allocMemOuter_mono qty W H innerFuel _ _ _ _ _ _ _ h

end Pixel

namespace Pixel

/-! ### The event ledger and the webhook handlers -/

theorem tryInsertEvent_not_mem (db : DB) (eid : String)
    (h : eid ∈ db.processedEvents) : tryInsertEvent db eid = (false, db) := by
  unfold tryInsertEvent
  rw [if_pos h]

theorem tryInsertEvent_new (db : DB) (eid : String)
    (h : eid ∉ db.processedEvents) :
    tryInsertEvent db eid =
      (true, { db with processedEvents := insert eid db.processedEvents }) := by
  unfold tryInsertEvent
  rw [if_neg h]

theorem tryInsertEvent_fst_iff (db : DB) (eid : String) :
    (tryInsertEvent db eid).1 = true ↔ eid ∉ db.processedEvents := by
  by_cases h : eid ∈ db.processedEvents
  · rw [tryInsertEvent_not_mem db eid h]
    simp [h]
  · rw [tryInsertEvent_new db eid h]
    simp [h]

theorem tryInsertEvent_mem_snd (db : DB) (eid : String) :
    eid ∈ ((tryInsertEvent db eid).2).processedEvents := by
  by_cases h : eid ∈ db.processedEvents
  · rw [tryInsertEvent_not_mem db eid h]
    exact h
  · rw [tryInsertEvent_new db eid h]
    exact Finset.mem_insert_self _ _

theorem tryInsertEvent_frame (db : DB) (eid : String) :
    ((tryInsertEvent db eid).2).revealed = db.revealed ∧
      ((tryInsertEvent db eid).2).cellAllocs = db.cellAllocs ∧
      ((tryInsertEvent db eid).2).donations = db.donations := by
  by_cases h : eid ∈ db.processedEvents
  · rw [tryInsertEvent_not_mem db eid h]
    exact ⟨rfl, rfl, rfl⟩
  · rw [tryInsertEvent_new db eid h]
    exact ⟨rfl, rfl, rfl⟩

theorem webhookRouter_dedup (fails : Nat → Bool) (W H : Nat)
    (ccp : Int) (seeds : Nat → Nat × Nat) (innerFuel : Nat)
    (ev : StripeEvent) (db : DB) (h : ev.id ∈ db.processedEvents) :
    stripeWebhookRouter fails W H ccp seeds innerFuel ev db =
      (db, .deduped, []) := by
  unfold stripeWebhookRouter
  simp [tryInsertEvent_not_mem db ev.id h]

theorem webhookServer_dedup (fails : Nat → Bool) (W H : Nat)
    (ccp : Int) (seeds : Nat → Nat × Nat) (innerFuel : Nat)
    (ev : StripeEvent) (db : DB) (h : ev.id ∈ db.processedEvents) :
    stripeWebhookServer fails W H ccp seeds innerFuel ev db =
      (db, .deduped, []) := by
  unfold stripeWebhookServer
  simp [tryInsertEvent_not_mem db ev.id h]

theorem webhookRouter_notCompleted (fails : Nat → Bool) (W H : Nat)
    (ccp : Int) (seeds : Nat → Nat × Nat) (innerFuel : Nat)
    (ev : StripeEvent) (db : DB) (hnew : ev.id ∉ db.processedEvents)
    (hc : ev.isCompleted = false) :
    stripeWebhookRouter fails W H ccp seeds innerFuel ev db =
      ((tryInsertEvent db ev.id).2, .received, []) := by
  unfold stripeWebhookRouter
  rw [tryInsertEvent_new db ev.id hnew]
  simp [hc, tryInsertEvent_new db ev.id hnew]

theorem webhookRouter_msgOnly (fails : Nat → Bool) (W H : Nat)
    (ccp : Int) (seeds : Nat → Nat × Nat) (innerFuel : Nat)
    (ev : StripeEvent) (db : DB) (hnew : ev.id ∉ db.processedEvents)
    (hc : ev.isCompleted = true)
    (hq : cellsToRevealOf (ev.amountTotal.getD 0) ccp ≤ 0) :
    stripeWebhookRouter fails W H ccp seeds innerFuel ev db =
      (recordDonation (tryInsertEvent db ev.id).2 ev.id
        (ev.amountTotal.getD 0) ev.message 0, .received,
        [.donationMessage ev.id (ev.amountTotal.getD 0) ev.message]) := by
  unfold stripeWebhookRouter
  rw [tryInsertEvent_new db ev.id hnew]
  simp [hc, hq, tryInsertEvent_new db ev.id hnew]

theorem webhookServer_msgOnly (fails : Nat → Bool) (W H : Nat)
    (ccp : Int) (seeds : Nat → Nat × Nat) (innerFuel : Nat)
    (ev : StripeEvent) (db : DB) (hnew : ev.id ∉ db.processedEvents)
    (hc : ev.isCompleted = true)
    (hq : cellsToRevealOf (ev.amountTotal.getD 0) ccp ≤ 0) :
    stripeWebhookServer fails W H ccp seeds innerFuel ev db =
      ((tryInsertEvent db ev.id).2, .received,
        [.donationMessage ev.id (ev.amountTotal.getD 0) ev.message]) := by
  unfold stripeWebhookServer
  rw [tryInsertEvent_new db ev.id hnew]
  simp [hc, hq, tryInsertEvent_new db ev.id hnew]

theorem webhookRouter_alloc (fails : Nat → Bool) (W H : Nat)
    (ccp : Int) (seeds : Nat → Nat × Nat) (innerFuel : Nat)
    (ev : StripeEvent) (db db1 : DB) (cells : List Cell)
    (hnew : ev.id ∉ db.processedEvents) (hc : ev.isCompleted = true)
    (hq : 0 < cellsToRevealOf (ev.amountTotal.getD 0) ccp)
    (halloc : allocateCellsForEventAtomic fails
      (cellsToRevealOf (ev.amountTotal.getD 0) ccp) W H ev.id seeds
      innerFuel (tryInsertEvent db ev.id).2 = .ok db1 cells) :
    stripeWebhookRouter fails W H ccp seeds innerFuel ev db =
      (recordDonation db1 ev.id (ev.amountTotal.getD 0) ev.message
        cells.length, .received,
        [.cellsRevealed ev.id (ev.amountTotal.getD 0) ev.message cells]) := by
  unfold stripeWebhookRouter
  rw [tryInsertEvent_new db ev.id hnew] at halloc ⊢
  simp [hc, not_le.2 hq, halloc]

theorem webhookRouter_failed (fails : Nat → Bool) (W H : Nat)
    (ccp : Int) (seeds : Nat → Nat × Nat) (innerFuel : Nat)
    (ev : StripeEvent) (db d : DB)
    (hnew : ev.id ∉ db.processedEvents) (hc : ev.isCompleted = true)
    (hq : 0 < cellsToRevealOf (ev.amountTotal.getD 0) ccp)
    (halloc : allocateCellsForEventAtomic fails
      (cellsToRevealOf (ev.amountTotal.getD 0) ccp) W H ev.id seeds
      innerFuel (tryInsertEvent db ev.id).2 = .failed d) :
    stripeWebhookRouter fails W H ccp seeds innerFuel ev db =
      (d, .error500, []) := by
  unfold stripeWebhookRouter
  rw [tryInsertEvent_new db ev.id hnew] at halloc ⊢
  simp [hc, not_le.2 hq, halloc]

theorem webhookRouter_fuelOut (fails : Nat → Bool) (W H : Nat)
    (ccp : Int) (seeds : Nat → Nat × Nat) (innerFuel : Nat)
    (ev : StripeEvent) (db : DB)
    (hnew : ev.id ∉ db.processedEvents) (hc : ev.isCompleted = true)
    (hq : 0 < cellsToRevealOf (ev.amountTotal.getD 0) ccp)
    (halloc : allocateCellsForEventAtomic fails
      (cellsToRevealOf (ev.amountTotal.getD 0) ccp) W H ev.id seeds
      innerFuel (tryInsertEvent db ev.id).2 = .fuelOut) :
    stripeWebhookRouter fails W H ccp seeds innerFuel ev db =
      ((tryInsertEvent db ev.id).2, .modelFuelOut, []) := by
  unfold stripeWebhookRouter
  rw [tryInsertEvent_new db ev.id hnew] at halloc ⊢
  simp [hc, not_le.2 hq, halloc]

end Pixel

namespace Pixel

theorem webhookRouter_id_mem (fails : Nat → Bool) (W H : Nat) (ccp : Int)
    (seeds : Nat → Nat × Nat) (innerFuel : Nat) (ev : StripeEvent)
    (db : DB) :
    ev.id ∈
      (stripeWebhookRouter fails W H ccp seeds innerFuel
        ev db).1.processedEvents := by
  by_cases hmem : ev.id ∈ db.processedEvents
  · rw [webhookRouter_dedup fails W H ccp seeds innerFuel ev db hmem]
    exact hmem
  · have hsnd := tryInsertEvent_mem_snd db ev.id
    cases hcb : ev.isCompleted with
    | false =>
      rw [webhookRouter_notCompleted fails W H ccp seeds innerFuel ev db
        hmem hcb]
      exact hsnd
    | true =>
      by_cases hq : cellsToRevealOf (ev.amountTotal.getD 0) ccp ≤ 0
      · rw [webhookRouter_msgOnly fails W H ccp seeds innerFuel ev db
          hmem hcb hq]
        simpa [recordDonation] using hsnd
      · have hq' : 0 < cellsToRevealOf (ev.amountTotal.getD 0) ccp :=
          not_le.1 hq
        cases hres : allocateCellsForEventAtomic fails
            (cellsToRevealOf (ev.amountTotal.getD 0) ccp) W H ev.id seeds
            innerFuel (tryInsertEvent db ev.id).2 with
        | ok db1 cells =>
          rw [webhookRouter_alloc fails W H ccp seeds innerFuel ev db db1
            cells hmem hcb hq' hres]
          have hpe := (alloc_ok_mono_frame fails _ W H ev.id seeds innerFuel
            _ db1 cells hres).2.1
          simpa [recordDonation, hpe] using hsnd
        | failed d =>
          rw [webhookRouter_failed fails W H ccp seeds innerFuel ev db d
            hmem hcb hq' hres]
          have hd := alloc_failed_eq fails _ W H ev.id seeds innerFuel _ d
            hres
          dsimp only
          rw [hd]
          exact hsnd
        | fuelOut =>
          rw [webhookRouter_fuelOut fails W H ccp seeds innerFuel ev db
            hmem hcb hq' hres]
          exact hsnd

theorem webhookMem_dedup (W H : Nat) (ccp : Int)
    (seeds : Nat → Nat × Nat) (innerFuel : Nat) (ev : StripeEvent)
    (rl : List Cell) (processed : Finset String)
    (h : ev.id ∈ processed) :
    stripeWebhookMem W H ccp seeds innerFuel ev rl processed =
      (rl, processed, .deduped, []) := by
  unfold stripeWebhookMem
  rw [if_pos h]

theorem webhookMem_msgOnly (W H : Nat) (ccp : Int)
    (seeds : Nat → Nat × Nat) (innerFuel : Nat) (ev : StripeEvent)
    (rl : List Cell) (processed : Finset String)
    (hnew : ev.id ∉ processed) (hc : ev.isCompleted = true)
    (hq : cellsToRevealOf (ev.amountTotal.getD 0) ccp ≤ 0) :
    stripeWebhookMem W H ccp seeds innerFuel ev rl processed =
      (rl, insert ev.id processed, .received,
        [.donationMessage ev.id (ev.amountTotal.getD 0) ev.message]) := by
  unfold stripeWebhookMem
  rw [if_neg hnew]
  simp [hc, hq]

theorem webhookMem_alloc (W H : Nat) (ccp : Int)
    (seeds : Nat → Nat × Nat) (innerFuel : Nat) (ev : StripeEvent)
    (rl rl1 cells : List Cell) (rem : Nat) (processed : Finset String)
    (hnew : ev.id ∉ processed) (hc : ev.isCompleted = true)
    (hq : 0 < cellsToRevealOf (ev.amountTotal.getD 0) ccp)
    (halloc : allocateCells (cellsToRevealOf (ev.amountTotal.getD 0) ccp)
      W H seeds innerFuel rl = .ok (rl1, cells, rem)) :
    stripeWebhookMem W H ccp seeds innerFuel ev rl processed =
      (rl1, insert ev.id processed, .received,
        [.cellsRevealed ev.id (ev.amountTotal.getD 0) ev.message cells]) := by
  unfold stripeWebhookMem
  rw [if_neg hnew]
  simp [hc, not_le.2 hq, halloc]

theorem webhookMem_id_mem (W H : Nat) (ccp : Int)
    (seeds : Nat → Nat × Nat) (innerFuel : Nat) (ev : StripeEvent)
    (rl : List Cell) (processed : Finset String)
    (hc : ev.isCompleted = true)
    (hE : ∀ e, allocateCells (cellsToRevealOf (ev.amountTotal.getD 0) ccp)
      W H seeds innerFuel rl ≠ .error e) :
    ev.id ∈
      (stripeWebhookMem W H ccp seeds innerFuel ev rl processed).2.1 := by
  by_cases hmem : ev.id ∈ processed
  · rw [webhookMem_dedup W H ccp seeds innerFuel ev rl processed hmem]
    exact hmem
  · by_cases hq : cellsToRevealOf (ev.amountTotal.getD 0) ccp ≤ 0
    · rw [webhookMem_msgOnly W H ccp seeds innerFuel ev rl processed hmem
        hc hq]
      exact Finset.mem_insert_self _ _
    · cases hres : allocateCells (cellsToRevealOf (ev.amountTotal.getD 0)
          ccp) W H seeds innerFuel rl with
      | ok v =>
        obtain ⟨rl1, cells, rem⟩ := v
        rw [webhookMem_alloc W H ccp seeds innerFuel ev rl rl1 cells rem
          processed hmem hc (not_le.1 hq) hres]
        exact Finset.mem_insert_self _ _
      | error e => exact absurd hres (hE e)

/-! ### Monotonicity of the core operations -/

theorem applyOp_revealed_mono (W H : Nat) (ccp : Int) (db : DB)
    (op : CoreOp) : db.revealed ⊆ (applyOp W H ccp db op).revealed := by
  cases op with
  | webhook fails seeds innerFuel ev =>
    show db.revealed ⊆
      (stripeWebhookRouter fails W H ccp seeds innerFuel ev db).1.revealed
    by_cases hmem : ev.id ∈ db.processedEvents
    · rw [webhookRouter_dedup fails W H ccp seeds innerFuel ev db hmem]
    · have hfr := (tryInsertEvent_frame db ev.id).1
      cases hcb : ev.isCompleted with
      | false =>
        rw [webhookRouter_notCompleted fails W H ccp seeds innerFuel ev db
          hmem hcb]
        dsimp only
        rw [hfr]
      | true =>
        by_cases hq : cellsToRevealOf (ev.amountTotal.getD 0) ccp ≤ 0
        · rw [webhookRouter_msgOnly fails W H ccp seeds innerFuel ev db
            hmem hcb hq]
          simp only [recordDonation]
          rw [hfr]
        · have hq' : 0 < cellsToRevealOf (ev.amountTotal.getD 0) ccp :=
            not_le.1 hq
          cases hres : allocateCellsForEventAtomic fails
              (cellsToRevealOf (ev.amountTotal.getD 0) ccp) W H ev.id seeds
              innerFuel (tryInsertEvent db ev.id).2 with
          | ok db1 cells =>
            rw [webhookRouter_alloc fails W H ccp seeds innerFuel ev db db1
              cells hmem hcb hq' hres]
            have hmono := (alloc_ok_mono_frame fails _ W H ev.id seeds
              innerFuel _ db1 cells hres).1
            rw [hfr] at hmono
            simpa [recordDonation] using hmono
          | failed d =>
            rw [webhookRouter_failed fails W H ccp seeds innerFuel ev db d
              hmem hcb hq' hres]
            have hd := alloc_failed_eq fails _ W H ev.id seeds innerFuel _ d
              hres
            dsimp only
            rw [hd, hfr]
          | fuelOut =>
            rw [webhookRouter_fuelOut fails W H ccp seeds innerFuel ev db
              hmem hcb hq' hres]
            dsimp only
            rw [hfr]
  | allocRaw fails qty eid seeds innerFuel =>
    show db.revealed ⊆
      (match allocateCellsForEventAtomic fails qty W H eid seeds innerFuel
          db with
        | .ok db1 _ => db1
        | .failed d => d
        | .fuelOut => db).revealed
    cases hres : allocateCellsForEventAtomic fails qty W H eid seeds
        innerFuel db with
    | ok db1 cells =>
      exact (alloc_ok_mono_frame fails qty W H eid seeds innerFuel db db1
        cells hres).1
    | failed d =>
      have hd := alloc_failed_eq fails qty W H eid seeds innerFuel db d hres
      subst hd
      exact Finset.Subset.refl _
    | fuelOut => exact Finset.Subset.refl _

theorem applyOps_revealed_mono (W H : Nat) (ccp : Int) :
    ∀ (ops : List CoreOp) (db : DB),
      db.revealed ⊆ (ops.foldl (applyOp W H ccp) db).revealed := by
  intro ops
  induction ops with
  | nil => intro db; exact Finset.Subset.refl _
  | cons op rest ih =>
    intro db
    exact Finset.Subset.trans (applyOp_revealed_mono W H ccp db op)
      (ih (applyOp W H ccp db op))

end Pixel

namespace Pixel

/-- Decidable equality for `Except`, needed to evaluate concrete runs of the
embedded allocators. -/
instance exceptDecEq {ε α : Type} [DecidableEq ε] [DecidableEq α] :
    DecidableEq (Except ε α) := fun a b =>
  match a, b with
  | .error e, .error f =>
    if h : e = f then .isTrue (by rw [h])
    else .isFalse (fun hh => h (by injection hh))
  | .error _, .ok _ => .isFalse (fun hh => Except.noConfusion hh)
  | .ok _, .error _ => .isFalse (fun hh => Except.noConfusion hh)
  | .ok x, .ok y =>
    if h : x = y then .isTrue (by rw [h])
    else .isFalse (fun hh => h (by injection hh))

end Pixel

namespace Pixel

theorem lookupAlloc_append_of_not_mem (allocs : List (Cell × String))
    (L : List Cell) (eid : String) (c : Cell) (hc : c ∉ L) :
    lookupAlloc (allocs ++ L.map (fun x => (x, eid))) c =
      lookupAlloc allocs c := by
  have hnone : ∀ (M : List Cell), c ∉ M →
      (M.map (fun x => (x, eid))).find? (fun p => decide (p.1 = c)) =
        none := by
    intro M
    induction M with
    | nil => intro _; rfl
    | cons a M ih =>
      intro hM
      rw [List.map_cons, List.find?_cons_of_neg]
      · exact ih (fun h => hM (List.mem_cons_of_mem _ h))
      · simp only [decide_eq_true_eq]
        intro h
        subst h
        exact hM (List.mem_cons_self _ _)
  unfold lookupAlloc
  rw [List.find?_append, hnone L hc, Option.or_none]

/-- C3: on any failure mid-allocation (any SQL statement of the transaction
throwing, at any point of the run), the allocator rolls back: the committed
database after a failed run is exactly the database before the call, so no
partially revealed set of cells is ever observably committed for a failed
run — the snapshot is unchanged. -/
theorem claim3_rollback (fails : Nat → Bool) (qty : Int) (W H : Nat)
    (eid : String) (seeds : Nat → Nat × Nat) (innerFuel : Nat) (db d : DB)
    (h : allocateCellsForEventAtomic fails qty W H eid seeds innerFuel db =
      .failed d) :
    d = db ∧ getAllCells d = getAllCells db := by
  have hd := alloc_failed_eq fails qty W H eid seeds innerFuel db d h
  exact ⟨hd, by rw [hd]⟩

/-- Witness for C3: a concrete run on an empty 1×1 grid whose third SQL
statement (the `cell_allocations` insert of the first claimed cell, after
the cell was already inserted into `revealed` inside the transaction) throws;
the committed state is the initial empty database. -/
theorem claim3_rollback_witness :
    (⟨∅, [], ∅, []⟩ : DB) = (⟨∅, [], ∅, []⟩ : DB) ∧
      getAllCells ⟨∅, [], ∅, []⟩ = getAllCells (⟨∅, [], ∅, []⟩ : DB) :=
  claim3_rollback (fun n => decide (n = 2)) 1 1 1 "e1" (fun _ => (0, 0)) 6
    ⟨∅, [], ∅, []⟩ ⟨∅, [], ∅, []⟩ (by decide)

/-- C7: the number of cells a payment buys is
`floor(amountMinorUnits / centsPerCell)` over exact integers: with
`centsPerCell = 2500`, amount 6000 yields 2 and amount 2499 yields 0; a
2499-cent completed event takes the message-only path of the webhook
handler (zero-cell donation row, `donation_message` broadcast, no
allocation). -/
theorem claim7_rounding :
    cellsToRevealOf 6000 2500 = 2 ∧ cellsToRevealOf 2499 2500 = 0 ∧
    (∀ (fails : Nat → Bool) (W H : Nat) (seeds : Nat → Nat × Nat)
      (innerFuel : Nat) (ev : StripeEvent) (db : DB),
      ev.isCompleted = true → ev.amountTotal = some 2499 →
      ev.id ∉ db.processedEvents →
      stripeWebhookRouter fails W H 2500 seeds innerFuel ev db =
        (recordDonation (tryInsertEvent db ev.id).2 ev.id 2499 ev.message 0,
          .received, [.donationMessage ev.id 2499 ev.message])) := by
  refine ⟨by decide, by decide, ?_⟩
  intro fails W H seeds innerFuel ev db hc hamt hnew
  have h2 := webhookRouter_msgOnly fails W H 2500 seeds innerFuel ev db hnew
    hc (by rw [hamt]; decide)
  rw [h2, hamt]
  simp

/-- Witness for C7 at a concrete event and empty database. -/
theorem claim7_rounding_witness :
    cellsToRevealOf 6000 2500 = 2 ∧
    stripeWebhookRouter noFail 200 200 2500 (fun _ => (0, 0)) 0
        ⟨"evt1", true, some 2499, "hi"⟩ ⟨∅, [], ∅, []⟩ =
      (recordDonation
        (tryInsertEvent ⟨∅, [], ∅, []⟩
          (⟨"evt1", true, some 2499, "hi"⟩ : StripeEvent).id).2
        (⟨"evt1", true, some 2499, "hi"⟩ : StripeEvent).id 2499
        (⟨"evt1", true, some 2499, "hi"⟩ : StripeEvent).message 0,
        .received,
        [.donationMessage (⟨"evt1", true, some 2499, "hi"⟩ : StripeEvent).id
          2499 (⟨"evt1", true, some 2499, "hi"⟩ : StripeEvent).message]) :=
  ⟨claim7_rounding.1,
    claim7_rounding.2.2 noFail 200 200 (fun _ => (0, 0)) 0
      ⟨"evt1", true, some 2499, "hi"⟩ ⟨∅, [], ∅, []⟩ rfl rfl (by decide)⟩

/-- C9: grid state is monotonic — no core operation (webhook delivery with
any failure oracle, or direct allocator invocation) ever removes a revealed
cell, so a coordinate present in an earlier snapshot is present in every
later snapshot; likewise the in-memory allocator only ever appends to the
revealed store. -/
theorem claim9_monotonic :
    (∀ (W H : Nat) (ccp : Int) (ops : List CoreOp) (db : DB) (c : Cell),
      c ∈ getAllCells db →
      c ∈ getAllCells (ops.foldl (applyOp W H ccp) db)) ∧
    (∀ (qty : Int) (W H : Nat) (seeds : Nat → Nat × Nat) (innerFuel : Nat)
      (rl rl' cells : List Cell) (rem : Nat),
      allocateCells qty W H seeds innerFuel rl = .ok (rl', cells, rem) →
      ∀ c ∈ allRevealedCells rl, c ∈ allRevealedCells rl') := by
  constructor
  · intro W H ccp ops db c hc
    rw [getAllCells, Finset.mem_sort] at hc ⊢
    exact applyOps_revealed_mono W H ccp ops db hc
  · intro qty W H seeds innerFuel rl rl' cells rem h c hc
    exact allocateCells_mono qty W H seeds innerFuel rl rl' cells rem h c hc

/-- Witness for C9: the cell (0,0), revealed before a later allocator
operation runs on the 1×1 grid, is still in the snapshot afterwards. -/
theorem claim9_monotonic_witness :
    ((0 : Int), (0 : Int)) ∈
      getAllCells
        (([CoreOp.allocRaw noFail 1 "e2" (fun _ => (0, 0)) 6]).foldl
          (applyOp 1 1 2500) ⟨{((0 : Int), (0 : Int))}, [], ∅, []⟩) :=
  claim9_monotonic.1 1 1 2500 [CoreOp.allocRaw noFail 1 "e2" (fun _ => (0, 0)) 6]
    ⟨{((0 : Int), (0 : Int))}, [], ∅, []⟩ ((0 : Int), (0 : Int))
    (by rw [getAllCells, Finset.mem_sort]; decide)

/-- C10: the allocator's only state change is revealing and allocating
exactly the coordinates it returns — the revealed set grows by exactly the
returned cells, the allocation table gains exactly one row per returned
cell, every other coordinate keeps its revealed status and its allocation
lookup, and the processed-events ledger and donations table are untouched;
for qty ≤ 0 the (failure-free) run returns the empty list and leaves the
whole database unchanged. -/
theorem claim10_frame :
    (∀ (fails : Nat → Bool) (qty : Int) (W H : Nat) (eid : String)
      (seeds : Nat → Nat × Nat) (innerFuel : Nat) (db db' : DB)
      (cells : List Cell),
      (∀ p ∈ db.cellAllocs, p.1 ∈ db.revealed) →
      allocateCellsForEventAtomic fails qty W H eid seeds innerFuel db =
        .ok db' cells →
      db'.revealed = db.revealed ∪ cells.toFinset ∧
      db'.cellAllocs = db.cellAllocs ++ cells.map (fun c => (c, eid)) ∧
      db'.processedEvents = db.processedEvents ∧
      db'.donations = db.donations ∧
      (∀ c : Cell, c ∉ cells →
        ((c ∈ db'.revealed ↔ c ∈ db.revealed) ∧
          lookupAlloc db'.cellAllocs c = lookupAlloc db.cellAllocs c))) ∧
    (∀ (qty : Int) (W H : Nat) (eid : String) (seeds : Nat → Nat × Nat)
      (innerFuel : Nat) (db : DB), qty ≤ 0 →
      allocateCellsForEventAtomic noFail qty W H eid seeds innerFuel db =
        .ok db []) := by
  constructor
  · intro fails qty W H eid seeds innerFuel db db' cells hWF h
    obtain ⟨hnd, hmem, hrev, hca, hpe, hdon⟩ :=
      alloc_ok_spec fails qty W H eid seeds innerFuel db db' cells hWF h
    refine ⟨hrev, hca, hpe, hdon, ?_⟩
    intro c hc
    constructor
    · rw [hrev, Finset.mem_union]
      constructor
      · rintro (h1 | h1)
        · exact h1
        · exact absurd (List.mem_toFinset.1 h1) hc
      · exact Or.inl
    · rw [hca]
      exact lookupAlloc_append_of_not_mem db.cellAllocs cells eid c hc
  · intro qty W H eid seeds innerFuel db hq
    exact alloc_qty_nonpos qty W H eid seeds innerFuel db hq

/-- Witness for C10: the concrete run on the empty 1×1 grid reveals exactly
the returned cell (0,0) and touches nothing else; and a qty = 0 run is a
complete no-op. -/
theorem claim10_frame_witness :
    ((⟨{((0 : Int), (0 : Int))}, [(((0 : Int), (0 : Int)), "e1")], ∅, []⟩ :
        DB).revealed =
      (⟨∅, [], ∅, []⟩ : DB).revealed ∪
        ([((0 : Int), (0 : Int))] : List Cell).toFinset ∧
      (⟨{((0 : Int), (0 : Int))}, [(((0 : Int), (0 : Int)), "e1")], ∅, []⟩ :
        DB).cellAllocs =
        (⟨∅, [], ∅, []⟩ : DB).cellAllocs ++
          ([((0 : Int), (0 : Int))] : List Cell).map (fun c => (c, "e1")) ∧
      (⟨{((0 : Int), (0 : Int))}, [(((0 : Int), (0 : Int)), "e1")], ∅, []⟩ :
        DB).processedEvents = (⟨∅, [], ∅, []⟩ : DB).processedEvents ∧
      (⟨{((0 : Int), (0 : Int))}, [(((0 : Int), (0 : Int)), "e1")], ∅, []⟩ :
        DB).donations = (⟨∅, [], ∅, []⟩ : DB).donations ∧
      (∀ c : Cell, c ∉ ([((0 : Int), (0 : Int))] : List Cell) →
        ((c ∈ (⟨{((0 : Int), (0 : Int))},
            [(((0 : Int), (0 : Int)), "e1")], ∅, []⟩ : DB).revealed ↔
          c ∈ (⟨∅, [], ∅, []⟩ : DB).revealed) ∧
          lookupAlloc (⟨{((0 : Int), (0 : Int))},
            [(((0 : Int), (0 : Int)), "e1")], ∅, []⟩ : DB).cellAllocs c =
            lookupAlloc (⟨∅, [], ∅, []⟩ : DB).cellAllocs c))) ∧
    allocateCellsForEventAtomic noFail 0 1 1 "e3" (fun _ => (0, 0)) 6
        ⟨∅, [], ∅, []⟩ = .ok ⟨∅, [], ∅, []⟩ [] :=
  ⟨claim10_frame.1 noFail 2 1 1 "e1" (fun _ => (0, 0)) 6 ⟨∅, [], ∅, []⟩
      ⟨{((0 : Int), (0 : Int))}, [(((0 : Int), (0 : Int)), "e1")], ∅, []⟩
      [((0 : Int), (0 : Int))] (by decide) (by decide),
    claim10_frame.2 0 1 1 "e3" (fun _ => (0, 0)) 6 ⟨∅, [], ∅, []⟩
      (by decide)⟩

end Pixel

namespace Pixel

/-- C1 (amended): every allocator run returns at most `qty` cells (both the
db.js allocator and the in-memory `allocateCells`); and the DB-backed
allocator, on a grid with fewer than `qty` unrevealed cells remaining,
returns exactly all previously-unrevealed cells, terminating within the
attempt bound (any failure-free run with sufficient embedding fuel
completes).  The in-memory variant does not share the exactly-all
guarantee — see the counterexample. -/
theorem claim1_bounded :
    (∀ (fails : Nat → Bool) (qty : Int) (W H : Nat) (eid : String)
      (seeds : Nat → Nat × Nat) (innerFuel : Nat) (db db' : DB)
      (cells : List Cell), 0 ≤ qty →
      allocateCellsForEventAtomic fails qty W H eid seeds innerFuel db =
        .ok db' cells → (cells.length : Int) ≤ qty) ∧
    (∀ (qty : Int) (W H : Nat) (seeds : Nat → Nat × Nat) (innerFuel : Nat)
      (rl rl' cells : List Cell) (rem : Nat), 0 ≤ qty →
      allocateCells qty W H seeds innerFuel rl = .ok (rl', cells, rem) →
      (cells.length : Int) ≤ qty) ∧
    (∀ (qty : Int) (W H : Nat) (eid : String) (seeds : Nat → Nat × Nat)
      (innerFuel : Nat) (db : DB),
      (∀ p ∈ db.cellAllocs, p.1 ∈ db.revealed) →
      ((grid W H \ db.revealed).card : Int) < qty →
      4 * (W * H) + 1 < innerFuel →
      ∃ db' cells,
        allocateCellsForEventAtomic noFail qty W H eid seeds innerFuel db =
          .ok db' cells ∧ cells.Nodup ∧
        cells.toFinset = grid W H \ db.revealed) := by
  refine ⟨?_, ?_, ?_⟩
  · intro fails qty W H eid seeds innerFuel db db' cells h0 h
    exact alloc_length_le fails qty W H eid seeds innerFuel db db' cells h0 h
  · intro qty W H seeds innerFuel rl rl' cells rem h0 h
    exact allocateCells_length_le qty W H seeds innerFuel rl rl' cells rem
      h0 h
  · intro qty W H eid seeds innerFuel db hWF hcard hF
    exact alloc_exact_all qty W H eid seeds innerFuel db hWF hcard hF

/-- C1 counterexample: the in-memory `allocateCells` (server.js), on a 1×3
grid whose only revealed cell is (0,1), asked for qty = 3 while only 2
unrevealed cells exist, returns the empty list when every random seed lands
on the revealed cell — it does not return all previously-unrevealed cells,
refuting the claim for the cited in-memory allocator. -/
theorem claim1_counterexample :
    allocateCells 3 1 3 (fun _ => (0, 1)) 14 [((0 : Int), (1 : Int))] =
      .ok ([((0 : Int), (1 : Int))], [], 0) ∧
    (((grid 1 3 \ ({((0 : Int), (1 : Int))} : Finset Cell)).card : Int) < 3) ∧
    ([] : List Cell).toFinset ≠
      grid 1 3 \ ({((0 : Int), (1 : Int))} : Finset Cell) := by
  decide

/-- Witness for C1 at concrete runs on tiny grids. -/
theorem claim1_bounded_witness :
    (([((0 : Int), (0 : Int))] : List Cell).length : Int) ≤ 2 ∧
    (([] : List Cell).length : Int) ≤ 1 ∧
    (∃ db' cells, allocateCellsForEventAtomic noFail 2 1 1 "e1"
      (fun _ => (0, 0)) 6 ⟨∅, [], ∅, []⟩ = .ok db' cells ∧ cells.Nodup ∧
      cells.toFinset = grid 1 1 \ (⟨∅, [], ∅, []⟩ : DB).revealed) :=
  ⟨claim1_bounded.1 noFail 2 1 1 "e1" (fun _ => (0, 0)) 6 ⟨∅, [], ∅, []⟩
      ⟨{((0 : Int), (0 : Int))}, [(((0 : Int), (0 : Int)), "e1")], ∅, []⟩
      [((0 : Int), (0 : Int))] (by decide) (by decide),
    claim1_bounded.2.1 1 1 1 (fun _ => (0, 0)) 5 [((0 : Int), (0 : Int))]
      [((0 : Int), (0 : Int))] [] 0 (by decide) (by decide),
    claim1_bounded.2.2 2 1 1 "e1" (fun _ => (0, 0)) 6 ⟨∅, [], ∅, []⟩
      (by decide) (by decide) (by decide)⟩

/-- C4 (amended): the db.js flood fill treats already-revealed cells as
pass-through nodes — a popped unseen candidate that is already revealed
adds nothing to the accumulator but its in-bounds neighbors are still
enqueued (first conjunct); a popped unrevealed candidate is claimed and its
neighbors are enqueued the same way (second conjunct, enqueuing is
independent of revealed state); and the random seed is used without
checking it is unrevealed: a run seeded forever at the revealed cell (0,1)
of a 1×3 grid still claims both remaining cells by passing through it
(third conjunct).  The in-memory `allocateCells` behaves differently — see
the counterexample. -/
theorem claim4_passthrough :
    (∀ (fails : Nat → Bool) (qty : Int) (W H : Nat) (eid : String)
      (fuel : Nat) (c : Cell) (rest : List Cell) (seen : Finset Cell)
      (db : DB) (alloc : List Cell) (step : Nat),
      (alloc.length : Int) < qty → c ∉ seen → fails step = false →
      c ∈ db.revealed →
      bfsLoop fails qty W H eid (fuel + 1) (c :: rest) seen db alloc step =
        bfsLoop fails qty W H eid fuel (rest ++ neighborsOf W H c.1 c.2)
          (insert c seen) db alloc (step + 1)) ∧
    (∀ (fails : Nat → Bool) (qty : Int) (W H : Nat) (eid : String)
      (fuel : Nat) (c : Cell) (rest : List Cell) (seen : Finset Cell)
      (db : DB) (alloc : List Cell) (step : Nat),
      (alloc.length : Int) < qty → c ∉ seen → fails step = false →
      fails (step + 1) = false → c ∉ db.revealed →
      bfsLoop fails qty W H eid (fuel + 1) (c :: rest) seen db alloc step =
        bfsLoop fails qty W H eid fuel (rest ++ neighborsOf W H c.1 c.2)
          (insert c seen)
          { db with revealed := insert c db.revealed,
                    cellAllocs := insertCellAlloc db.cellAllocs c eid }
          (alloc ++ [c]) (step + 2)) ∧
    allocateCellsForEventAtomic noFail 2 1 3 "e1" (fun _ => (0, 1)) 14
        ⟨{((0 : Int), (1 : Int))}, [], ∅, []⟩ =
      .ok ⟨insert ((0 : Int), (0 : Int))
          (insert ((0 : Int), (2 : Int)) {((0 : Int), (1 : Int))}),
        [(((0 : Int), (2 : Int)), "e1"), (((0 : Int), (0 : Int)), "e1")],
        ∅, []⟩ [((0 : Int), (2 : Int)), ((0 : Int), (0 : Int))] := by
  refine ⟨?_, ?_, by decide⟩
  · intro fails qty W H eid fuel c rest seen db alloc step hlen hseen hf hrev
    rw [bfsLoop]
    rw [if_pos hlen, if_neg hseen, if_neg (by simp [hf]), if_pos hrev]
  · intro fails qty W H eid fuel c rest seen db alloc step hlen hseen hf hf2
      hrev
    rw [bfsLoop]
    rw [if_pos hlen, if_neg hseen, if_neg (by simp [hf]), if_neg hrev,
      if_neg (by simp [hf2])]

/-- C4 counterexample: in the in-memory `allocateCells` the neighbor filter
consults the revealed store at enqueue time — the only in-bounds neighbor
(0,1) of (0,0) on the 1×3 grid is dropped because it is revealed — and a
revealed seed is skipped outright, so a run seeded forever at the revealed
cell (0,1) starves and returns no cells: filtering does NOT happen only at
pop time, neighbors are NOT enqueued regardless of revealed state, and the
seed IS checked. -/
theorem claim4_counterexample :
    neighborsOfMem 1 3 [((0 : Int), (1 : Int))] 0 0 = [] ∧
    allocateCells 2 1 3 (fun _ => (0, 1)) 14 [((0 : Int), (1 : Int))] =
      .ok ([((0 : Int), (1 : Int))], [], 0) := by
  decide

/-- Witness for C4: the pass-through step equation at a concrete state. -/
theorem claim4_passthrough_witness :
    bfsLoop noFail 1 1 1 "e1" 1 [((0 : Int), (0 : Int))] ∅
        ⟨{((0 : Int), (0 : Int))}, [], ∅, []⟩ [] 5 =
      bfsLoop noFail 1 1 1 "e1" 0
        ([] ++ neighborsOf 1 1 (0 : Int) (0 : Int))
        (insert ((0 : Int), (0 : Int)) ∅)
        ⟨{((0 : Int), (0 : Int))}, [], ∅, []⟩ [] (5 + 1) :=
  claim4_passthrough.1 noFail 1 1 1 "e1" 0 ((0 : Int), (0 : Int)) [] ∅
    ⟨{((0 : Int), (0 : Int))}, [], ∅, []⟩ [] 5 (by decide) (by decide) rfl
    (by decide)

/-- C5 (amended): the DB-backed allocator's outer loop stops only when the
accumulator holds at least `qty` cells or its attempt budget — initialized
to `2·W·H` — is exhausted, and (given sufficient embedding fuel for the
finite inner traversals) every failure-free invocation terminates with a
result; the in-memory `allocateCells` stops under the same condition but
with attempt budget `W·H`, not `2·W·H`. -/
theorem claim5_bound :
    (∀ (fails : Nat → Bool) (qty : Int) (W H : Nat) (eid : String)
      (innerFuel n : Nat) (seeds : Nat → Nat × Nat) (db : DB)
      (alloc : List Cell) (step : Nat) (db' : DB) (alloc' : List Cell)
      (rem step' : Nat),
      allocOuter fails qty W H eid innerFuel seeds n db alloc step =
        .ok (db', alloc', rem, step') →
      qty ≤ (alloc'.length : Int) ∨ rem = 0) ∧
    (∀ (qty : Int) (W H : Nat) (eid : String) (seeds : Nat → Nat × Nat)
      (innerFuel : Nat) (db : DB), 4 * (W * H) + 1 < innerFuel →
      ∃ db' cells,
        allocateCellsForEventAtomic noFail qty W H eid seeds innerFuel db =
          .ok db' cells) ∧
    (∀ (qty : Int) (W H : Nat) (seeds : Nat → Nat × Nat) (innerFuel : Nat)
      (rl rl' cells : List Cell) (rem : Nat),
      allocateCells qty W H seeds innerFuel rl = .ok (rl', cells, rem) →
      qty ≤ (cells.length : Int) ∨ rem = 0) := by
  refine ⟨?_, ?_, ?_⟩
  · intro fails qty W H eid innerFuel n seeds db alloc step db' alloc' rem
      step' h
    exact allocOuter_stop fails qty W H eid innerFuel n seeds db alloc step
      db' alloc' rem step' h
  · intro qty W H eid seeds innerFuel db hF
    exact alloc_terminates qty W H eid seeds innerFuel db hF
  · intro qty W H seeds innerFuel rl rl' cells rem h
    exact allocateCells_stop qty W H seeds innerFuel rl rl' cells rem h

/-- C5 counterexample: the in-memory `allocateCells` on a 1×2 grid with
(0,0) revealed and qty = 1, with seeds hitting the revealed cell for the
first two attempts and a free cell afterwards, stops empty-handed after
`W·H = 2` attempts; running the same loop with the claimed `2·W·H = 4`
attempt budget would allocate the free cell — so the in-memory loop does
NOT continue until the accumulator holds qty cells or the attempt counter
reaches 2·W·H. -/
theorem claim5_counterexample :
    allocateCells 1 1 2 (fun i => (0, if i < 2 then 0 else 1)) 14
      [((0 : Int), (0 : Int))] = .ok ([((0 : Int), (0 : Int))], [], 0) ∧
    allocMemOuter 1 1 2 14 (fun i => (0, if i < 2 then 0 else 1))
      (2 * (1 * 2)) [((0 : Int), (0 : Int))] [] =
      .ok ([((0 : Int), (0 : Int)), ((0 : Int), (1 : Int))],
        [((0 : Int), (1 : Int))], 1) := by
  decide

/-- Witness for C5 at concrete runs. -/
theorem claim5_bound_witness :
    ((2 : Int) ≤ (([((0 : Int), (0 : Int))] : List Cell).length : Int) ∨
      (0 : Nat) = 0) ∧
    (∃ db' cells, allocateCellsForEventAtomic noFail 1 1 1 "e1"
      (fun _ => (0, 0)) 6 ⟨∅, [], ∅, []⟩ = .ok db' cells) ∧
    ((1 : Int) ≤ (([] : List Cell).length : Int) ∨ (0 : Nat) = 0) :=
  ⟨claim5_bound.1 noFail 2 1 1 "e1" 6 (1 * 1 * 2) (fun _ => (0, 0))
      ⟨∅, [], ∅, []⟩ [] 1
      ⟨{((0 : Int), (0 : Int))}, [(((0 : Int), (0 : Int)), "e1")], ∅, []⟩
      [((0 : Int), (0 : Int))] 0 4 (by decide),
    claim5_bound.2.1 1 1 1 "e1" (fun _ => (0, 0)) 6 ⟨∅, [], ∅, []⟩
      (by decide),
    claim5_bound.2.2 1 1 1 (fun _ => (0, 0)) 5 [((0 : Int), (0 : Int))]
      [((0 : Int), (0 : Int))] [] 0 (by decide)⟩

end Pixel

namespace Pixel

/-- C2: `tryInsertEvent` returns true exactly when the identifier was not
yet present (and the identifier is present afterwards in every case); a
second webhook delivery with the same event id — under any failure oracle,
seed stream and fuel — returns "deduped" and performs no side effects: the
state after the second call is exactly the state after the first, so zero
additional cells are allocated and no second donation row is appended.
The same holds for the in-memory handler on completed events (whose
embedded allocator run is given enough fuel).  The race-freedom of the
conflict-backed insert is a concurrency property outside this sequential
embedding; its functional content is the first conjunct. -/
theorem claim2_exactly_once :
    (∀ (db : DB) (eid : String),
      ((tryInsertEvent db eid).1 = true ↔ eid ∉ db.processedEvents) ∧
      eid ∈ ((tryInsertEvent db eid).2).processedEvents) ∧
    (∀ (fails fails2 : Nat → Bool) (W H : Nat) (ccp : Int)
      (seeds seeds2 : Nat → Nat × Nat) (innerFuel innerFuel2 : Nat)
      (ev : StripeEvent) (db : DB),
      stripeWebhookRouter fails2 W H ccp seeds2 innerFuel2 ev
        (stripeWebhookRouter fails W H ccp seeds innerFuel ev db).1 =
      ((stripeWebhookRouter fails W H ccp seeds innerFuel ev db).1,
        .deduped, [])) ∧
    (∀ (W H : Nat) (ccp : Int) (seeds seeds2 : Nat → Nat × Nat)
      (innerFuel innerFuel2 : Nat) (ev : StripeEvent) (rl : List Cell)
      (processed : Finset String),
      ev.isCompleted = true →
      (∀ e, allocateCells (cellsToRevealOf (ev.amountTotal.getD 0) ccp) W H
        seeds innerFuel rl ≠ .error e) →
      stripeWebhookMem W H ccp seeds2 innerFuel2 ev
        (stripeWebhookMem W H ccp seeds innerFuel ev rl processed).1
        (stripeWebhookMem W H ccp seeds innerFuel ev rl processed).2.1 =
      ((stripeWebhookMem W H ccp seeds innerFuel ev rl processed).1,
        (stripeWebhookMem W H ccp seeds innerFuel ev rl processed).2.1,
        .deduped, [])) := by
  refine ⟨?_, ?_, ?_⟩
  · intro db eid
    exact ⟨tryInsertEvent_fst_iff db eid, tryInsertEvent_mem_snd db eid⟩
  · intro fails fails2 W H ccp seeds seeds2 innerFuel innerFuel2 ev db
    exact webhookRouter_dedup fails2 W H ccp seeds2 innerFuel2 ev _
      (webhookRouter_id_mem fails W H ccp seeds innerFuel ev db)
  · intro W H ccp seeds seeds2 innerFuel innerFuel2 ev rl processed hc hE
    exact webhookMem_dedup W H ccp seeds2 innerFuel2 ev _ _
      (webhookMem_id_mem W H ccp seeds innerFuel ev rl processed hc hE)

/-- Witness for C2: a concrete double delivery of the same completed event
to the DB-backed router handler and to the in-memory handler. -/
theorem claim2_exactly_once_witness :
    (stripeWebhookRouter noFail 1 1 2500 (fun _ => (0, 0)) 6
        ⟨"evt1", true, some 2500, "m"⟩
        (stripeWebhookRouter noFail 1 1 2500 (fun _ => (0, 0)) 6
          ⟨"evt1", true, some 2500, "m"⟩ ⟨∅, [], ∅, []⟩).1 =
      ((stripeWebhookRouter noFail 1 1 2500 (fun _ => (0, 0)) 6
        ⟨"evt1", true, some 2500, "m"⟩ ⟨∅, [], ∅, []⟩).1, .deduped, [])) ∧
    (stripeWebhookMem 1 1 2500 (fun _ => (0, 0)) 6
        ⟨"evt1", true, some 2500, "m"⟩
        (stripeWebhookMem 1 1 2500 (fun _ => (0, 0)) 6
          ⟨"evt1", true, some 2500, "m"⟩ [] ∅).1
        (stripeWebhookMem 1 1 2500 (fun _ => (0, 0)) 6
          ⟨"evt1", true, some 2500, "m"⟩ [] ∅).2.1 =
      ((stripeWebhookMem 1 1 2500 (fun _ => (0, 0)) 6
          ⟨"evt1", true, some 2500, "m"⟩ [] ∅).1,
        (stripeWebhookMem 1 1 2500 (fun _ => (0, 0)) 6
          ⟨"evt1", true, some 2500, "m"⟩ [] ∅).2.1, .deduped, [])) :=
  ⟨claim2_exactly_once.2.1 noFail noFail 1 1 2500 (fun _ => (0, 0))
      (fun _ => (0, 0)) 6 6 ⟨"evt1", true, some 2500, "m"⟩ ⟨∅, [], ∅, []⟩,
    claim2_exactly_once.2.2 1 1 2500 (fun _ => (0, 0)) (fun _ => (0, 0)) 6 6
      ⟨"evt1", true, some 2500, "m"⟩ [] ∅ rfl
      (by intro e; cases e <;> decide)⟩

/-- C6 (amended): for every handled payment event the Donation Record's
`cells_allocated` equals the number of cells the allocator invocation
actually committed (the revealed-set growth), which may be fewer than the
requested qty; when qty ≤ 0 the router-based webhook (part_002) records a
zero-cell Donation Record and emits the message-only broadcast with no
allocation attempted, while the part_000 server webhook emits the
message-only broadcast without recording any Donation Record. -/
theorem claim6_donation :
    (∀ (fails : Nat → Bool) (W H : Nat) (ccp : Int)
      (seeds : Nat → Nat × Nat) (innerFuel : Nat) (ev : StripeEvent)
      (db db1 : DB) (cells : List Cell),
      ev.id ∉ db.processedEvents → ev.isCompleted = true →
      0 < cellsToRevealOf (ev.amountTotal.getD 0) ccp →
      (∀ p ∈ db.cellAllocs, p.1 ∈ db.revealed) →
      allocateCellsForEventAtomic fails
        (cellsToRevealOf (ev.amountTotal.getD 0) ccp) W H ev.id seeds
        innerFuel (tryInsertEvent db ev.id).2 = .ok db1 cells →
      (stripeWebhookRouter fails W H ccp seeds innerFuel ev db).1.donations =
        db.donations ++
          [⟨ev.id, ev.amountTotal.getD 0, ev.message, cells.length⟩] ∧
      db1.revealed.card = db.revealed.card + cells.length) ∧
    (∀ (fails : Nat → Bool) (W H : Nat) (ccp : Int)
      (seeds : Nat → Nat × Nat) (innerFuel : Nat) (ev : StripeEvent)
      (db : DB),
      ev.id ∉ db.processedEvents → ev.isCompleted = true →
      cellsToRevealOf (ev.amountTotal.getD 0) ccp ≤ 0 →
      (stripeWebhookRouter fails W H ccp seeds innerFuel ev db).1.donations =
        db.donations ++ [⟨ev.id, ev.amountTotal.getD 0, ev.message, 0⟩] ∧
      (stripeWebhookRouter fails W H ccp seeds innerFuel ev db).2 =
        (.received,
          [.donationMessage ev.id (ev.amountTotal.getD 0) ev.message]) ∧
      (stripeWebhookRouter fails W H ccp seeds innerFuel ev db).1.revealed =
        db.revealed) ∧
    (∀ (fails : Nat → Bool) (W H : Nat) (ccp : Int)
      (seeds : Nat → Nat × Nat) (innerFuel : Nat) (ev : StripeEvent)
      (db : DB),
      ev.id ∉ db.processedEvents → ev.isCompleted = true →
      cellsToRevealOf (ev.amountTotal.getD 0) ccp ≤ 0 →
      (stripeWebhookServer fails W H ccp seeds innerFuel ev db).1.donations =
        db.donations ∧
      (stripeWebhookServer fails W H ccp seeds innerFuel ev db).2 =
        (.received,
          [.donationMessage ev.id (ev.amountTotal.getD 0) ev.message]) ∧
      (stripeWebhookServer fails W H ccp seeds innerFuel ev db).1.revealed =
        db.revealed) := by
  refine ⟨?_, ?_, ?_⟩
  · intro fails W H ccp seeds innerFuel ev db db1 cells hnew hc hq hWF halloc
    have hfr := tryInsertEvent_frame db ev.id
    have hWF2 : ∀ p ∈ ((tryInsertEvent db ev.id).2).cellAllocs,
        p.1 ∈ ((tryInsertEvent db ev.id).2).revealed := by
      rw [hfr.2.1, hfr.1]
      exact hWF
    obtain ⟨hnd, hmem, hrev, _, _, hdon⟩ := alloc_ok_spec fails _ W H ev.id
      seeds innerFuel _ db1 cells hWF2 halloc
    constructor
    · rw [webhookRouter_alloc fails W H ccp seeds innerFuel ev db db1 cells
        hnew hc hq halloc]
      simp only [recordDonation]
      rw [hdon, hfr.2.2]
    · rw [hrev, hfr.1]
      rw [Finset.card_union_of_disjoint, List.toFinset_card_of_nodup hnd]
      rw [Finset.disjoint_right]
      intro a ha
      have ha2 := (hmem a (List.mem_toFinset.1 ha)).2
      rw [hfr.1] at ha2
      exact ha2
  · intro fails W H ccp seeds innerFuel ev db hnew hc hq
    rw [webhookRouter_msgOnly fails W H ccp seeds innerFuel ev db hnew hc hq]
    have hfr := tryInsertEvent_frame db ev.id
    refine ⟨?_, rfl, ?_⟩
    · simp only [recordDonation]
      rw [hfr.2.2]
    · simp only [recordDonation]
      exact hfr.1
  · intro fails W H ccp seeds innerFuel ev db hnew hc hq
    rw [webhookServer_msgOnly fails W H ccp seeds innerFuel ev db hnew hc hq]
    have hfr := tryInsertEvent_frame db ev.id
    exact ⟨hfr.2.2, rfl, hfr.1⟩

/-- C6 counterexample: the part_000 server webhook, on a completed 2499-cent
event (qty = 0) over an empty database, emits the message-only broadcast
but appends NO Donation Record — refuting the claim that a zero-cell
Donation Record is recorded on this path. -/
theorem claim6_counterexample :
    stripeWebhookServer noFail 200 200 2500 (fun _ => (0, 0)) 0
        ⟨"evt1", true, some 2499, "hi"⟩ ⟨∅, [], ∅, []⟩ =
      (⟨∅, [], {"evt1"}, []⟩, .received,
        [.donationMessage "evt1" 2499 "hi"]) ∧
    (stripeWebhookServer noFail 200 200 2500 (fun _ => (0, 0)) 0
        ⟨"evt1", true, some 2499, "hi"⟩ ⟨∅, [], ∅, []⟩).1.donations = [] := by
  decide

/-- Witness for C6: a concrete 2500-cent event on the empty 1×1 grid whose
allocator run commits exactly one cell; the router handler records a
donation row with `cells_allocated = 1`. -/
theorem claim6_donation_witness :
    ((stripeWebhookRouter noFail 1 1 2500 (fun _ => (0, 0)) 6
        ⟨"evt1", true, some 2500, "m"⟩ ⟨∅, [], ∅, []⟩).1.donations =
      (⟨∅, [], ∅, []⟩ : DB).donations ++
        [⟨(⟨"evt1", true, some 2500, "m"⟩ : StripeEvent).id,
          (⟨"evt1", true, some 2500, "m"⟩ : StripeEvent).amountTotal.getD 0,
          (⟨"evt1", true, some 2500, "m"⟩ : StripeEvent).message,
          ([((0 : Int), (0 : Int))] : List Cell).length⟩]) ∧
    (⟨{((0 : Int), (0 : Int))}, [(((0 : Int), (0 : Int)), "evt1")],
        {"evt1"}, []⟩ : DB).revealed.card =
      (⟨∅, [], ∅, []⟩ : DB).revealed.card +
        ([((0 : Int), (0 : Int))] : List Cell).length :=
  claim6_donation.1 noFail 1 1 2500 (fun _ => (0, 0)) 6
    ⟨"evt1", true, some 2500, "m"⟩ ⟨∅, [], ∅, []⟩
    ⟨{((0 : Int), (0 : Int))}, [(((0 : Int), (0 : Int)), "evt1")],
      {"evt1"}, []⟩ [((0 : Int), (0 : Int))] (by decide) rfl (by decide)
    (by decide) (by decide)

/-- C8 (amended): the DB-backed snapshot `getAllCells` returns the full set
of revealed cells ordered by (x, y) ascending; the in-memory snapshot
`allRevealedCells` returns the revealed store in insertion order, which
need not be (x, y)-ascending. -/
theorem claim8_snapshot :
    (∀ db : DB, List.Sorted cellLe (getAllCells db)) ∧
    (∀ (db : DB) (c : Cell), c ∈ getAllCells db ↔ c ∈ db.revealed) ∧
    ¬ List.Sorted cellLe
      (allRevealedCells [((1 : Int), (0 : Int)), ((0 : Int), (0 : Int))]) := by
  refine ⟨?_, ?_, by decide⟩
  · intro db
    exact Finset.sort_sorted cellLe db.revealed
  · intro db c
    exact Finset.mem_sort cellLe

/-- C8 counterexample: a reachable in-memory state — produced by the
in-memory allocator claiming (1,0) and then its neighbor (0,0) on a 2×1
grid — whose snapshot [(1,0), (0,0)] is not ordered by (x, y) ascending,
refuting the claim for the cited in-memory `allRevealedCells`. -/
theorem claim8_counterexample :
    allocateCells 2 2 1 (fun _ => (1, 0)) 14 [] =
      .ok ([((1 : Int), (0 : Int)), ((0 : Int), (0 : Int))],
        [((1 : Int), (0 : Int)), ((0 : Int), (0 : Int))], 1) ∧
    ¬ List.Sorted cellLe
      (allRevealedCells [((1 : Int), (0 : Int)), ((0 : Int), (0 : Int))]) := by
  decide

/-- Witness for C8 at a concrete database. -/
theorem claim8_snapshot_witness :
    List.Sorted cellLe
      (getAllCells ⟨{((0 : Int), (0 : Int))}, [], ∅, []⟩) :=
  claim8_snapshot.1 ⟨{((0 : Int), (0 : Int))}, [], ∅, []⟩

end Pixel
